import Mathlib

/-!
Verification of the agent-comparison-tool orchestration core against its
natural-language specification.

The development shallowly embeds the Python sources:
  * `src/agent_benchmark/container.py` — activity-line filtering,
    `ContainerManager.run`, `WorkspaceManager`;
  * `src/agent_benchmark/runner.py` — experiment expansion, sequential and
    bounded-parallel scheduling, interrupt draining, result collection;
  * `src/agent_benchmark/metrics.py` and `src/act/metrics.py` — metrics
    extraction.

Python strings are modelled as `List Char` where character-level scanning
matters (regexes, stripping) and as `String` elsewhere; machine-level
side effects (Docker, the real filesystem, subprocesses) are modelled as
explicit oracle parameters describing the outcome of each external call,
and Python exceptions as `Except`/`Option` values.
-/

namespace AgentBenchmark

/-! ## Activity-line parsing (container.py, lines 17-30)

`_ANSI_ESCAPE_RE = re.compile(r"\x1b\[[0-9;]*[a-zA-Z]")` and
`parse_activity_line` strip ANSI escapes, strip whitespace and keep the
line only when it starts with one of the six tool prefixes. -/

/-- The ESC character `\x1b` that opens an ANSI control sequence. -/
def escChar : Char := '\x1b'

/-- Characters matched by the regex class `[0-9;]` (CSI parameter bytes). -/
def isCsiParam (c : Char) : Bool := c.isDigit || c = ';'

/-- Characters matched by the regex class `[a-zA-Z]` (CSI final byte). -/
def isCsiFinal (c : Char) : Bool := ('a' ≤ c && c ≤ 'z') || ('A' ≤ c && c ≤ 'Z')

/-- Python `str.isspace` characters: exactly the set removed by
`str.strip()` and matched by `\s` in a Unicode pattern. -/
def isPySpace (c : Char) : Bool :=
  c = ' ' || c = '\t' || c = '\n' || c = '\x0b' || c = '\x0c' || c = '\r' ||
  c = '\x1c' || c = '\x1d' || c = '\x1e' || c = '\x1f' || c = '\x85' || c = '\xa0' ||
  c = '\u1680' || ('\u2000' ≤ c && c ≤ '\u200a') || c = '\u2028' || c = '\u2029' ||
  c = '\u202f' || c = '\u205f' || c = '\u3000'

/-- State of the single left-to-right pass of `_ANSI_ESCAPE_RE.sub("", s)`:
scanning plain text, just after an ESC, or inside `ESC [` with the
parameter bytes seen so far (in reverse). -/
inductive AnsiState where
  | txt
  | esc
  | csi (pending : List Char)
deriving DecidableEq

/-- One step of the `re.sub` scan.  Returns the next state and the
characters emitted (kept) by this step.  A failed partial match re-emits
the consumed characters literally, exactly as `re.sub` leaves unmatched
text in place: the regex can only start at an ESC, and none of the
re-emitted characters except a trailing ESC can start a new match, so the
one-character-at-a-time scan agrees with `re.sub`'s
advance-by-one-on-failure semantics. -/
def ansiStep : AnsiState → Char → AnsiState × List Char
  | .txt, c => if c = escChar then (.esc, []) else (.txt, [c])
  | .esc, c =>
    if c = '[' then (.csi [], [])
    else if c = escChar then (.esc, [escChar])
    else (.txt, [escChar, c])
  | .csi p, c =>
    if isCsiParam c then (.csi (c :: p), [])
    else if isCsiFinal c then (.txt, [])
    else if c = escChar then (.esc, escChar :: '[' :: p.reverse)
    else (.txt, (escChar :: '[' :: p.reverse) ++ [c])

/-- Characters emitted for a partial match still pending at end of input
(the regex requires a final byte, so the pending text is literal). -/
def ansiFlush : AnsiState → List Char
  | .txt => []
  | .esc => [escChar]
  | .csi p => escChar :: '[' :: p.reverse

/-- Run the `re.sub` scan from a given state. -/
def ansiRun : AnsiState → List Char → List Char
  | st, [] => ansiFlush st
  | st, c :: rest =>
    let s := ansiStep st c
    s.2 ++ ansiRun s.1 rest

/-- `_ANSI_ESCAPE_RE.sub("", s)`: one left-to-right pass removing every
non-overlapping occurrence of `\x1b\[[0-9;]*[a-zA-Z]`. -/
def ansiStrip (s : List Char) : List Char := ansiRun .txt s

/-- Python `str.strip()`: drop `isspace` characters from both ends. -/
def pyStrip (s : List Char) : List Char :=
  ((s.dropWhile isPySpace).reverse.dropWhile isPySpace).reverse

/-- `_TOOL_PREFIXES = ("→ ", "← ", "✱ ", "$ ", "⚙ ", "• ")`. -/
def toolMarkers : List (List Char) :=
  ["→ ".toList, "← ".toList, "✱ ".toList, "$ ".toList, "⚙ ".toList, "• ".toList]

/-- `parse_activity_line` (container.py lines 21-30): strip ANSI escapes,
strip whitespace, return the cleaned line when it starts with a known tool
marker and `None` otherwise. -/
def parse_activity_line (raw : List Char) : Option (List Char) :=
  let cleaned := pyStrip (ansiStrip raw)
  if toolMarkers.any (fun p => p.isPrefixOf cleaned) then some cleaned else none

/-- Whether the ANSI regex `\x1b\[[0-9;]*[a-zA-Z]` matches starting at the
head of the string: used to state that a string still contains an escape
sequence. -/
def csiTail : List Char → Bool
  | [] => false
  | c :: rest => if isCsiParam c then csiTail rest else isCsiFinal c

/-- Whether the ANSI regex matches at the head of `s`. -/
def ansiAtHead (s : List Char) : Bool :=
  match s with
  | c :: d :: rest => c = escChar && d = '[' && csiTail rest
  | _ => false

/-- Whether the ANSI regex matches anywhere in `s`. -/
def hasAnsi : List Char → Bool
  | [] => false
  | c :: rest => ansiAtHead (c :: rest) || hasAnsi rest

/-- The streaming loop of `ContainerManager.run` (container.py lines
153-160): every decoded chunk is appended to `all_logs`, and
`activity_callback` is invoked on `parse_activity_line(text)` whenever the
result is truthy (a non-empty string).  Returns `(all_logs, forwarded)`. -/
def streamChunks : List (List Char) → List (List Char) × List (List Char)
  | [] => ([], [])
  | t :: rest =>
    let p := streamChunks rest
    (t :: p.1,
      match parse_activity_line t with
      | some a => if a.isEmpty then p.2 else a :: p.2
      | none => p.2)

/-! ## Container manager (container.py, lines 33-203)

`ContainerManager.run` launches a detached container, registers it in
`self._containers`, streams/waits, classifies failures, and force-removes
the handle in a `finally` block.  Docker is modelled by a `RunBackend`
oracle describing the outcome of each external call; `ContainerError`
versus any other exception is the distinction the code draws with its two
`except` clauses. -/

/-- A Python exception crossing the backend boundary: either a docker
`ContainerError` (carrying optional stderr) or any other exception
(`docker` API errors, `requests` timeout of `wait`, ...). -/
inductive PyExc where
  | containerError (msg : String) (stderr : Option String)
  | other (msg : String)
deriving DecidableEq

/-- `str(e)` for a modelled exception. -/
def PyExc.msg : PyExc → String
  | .containerError m _ => m
  | .other m => m

/-- `ContainerConfig` (container.py lines 33-45). -/
structure ContainerConfig where
  run_id : String
  repo_url : String
  repo_commit : Option String
  prompt_file : Option String
  prompt_text : Option String
  model : Option String
  extra_args : List String
  timeout_seconds : Nat
  workspace_path : String
deriving DecidableEq

/-- `ContainerResult` (container.py lines 48-56). -/
structure ContainerResult where
  run_id : String
  exit_code : Int
  logs : String
  workspace_path : String
  error : Option String := none
deriving DecidableEq

/-- First-match lookup in the `run_id → container handle` map
(`self._containers`; handles are abstract numeric ids). -/
def cmLookup : List (String × Nat) → String → Option Nat
  | [], _ => none
  | (k, v) :: rest, key => if k = key then some v else cmLookup rest key

/-- `self._containers[run_id] = container`. -/
def cmInsert (m : List (String × Nat)) (k : String) (v : Nat) : List (String × Nat) :=
  (k, v) :: m

/-- `del self._containers[run_id]`. -/
def cmErase (m : List (String × Nat)) (k : String) : List (String × Nat) :=
  m.filter (fun p => p.1 ≠ k)

/-- Oracle describing the Docker backend during one `run` call:
`ensureImage` is the outcome of `self.ensure_image()` (called before the
`try` block), `launch` the outcome of `client.containers.run(...)`
(returning a fresh handle), `waitAndStream` the combined outcome of the
streaming/`container.wait` block (the `StatusCode` value, which may be
absent from the wait result, and the captured logs), and `removeFails`
whether `container.remove(force=True)` raises for a handle. -/
structure RunBackend where
  ensureImage : Option PyExc
  launch : Except PyExc Nat
  waitAndStream : Nat → Except PyExc (Option Int × String)
  removeFails : Nat → Bool

/-- The degraded `ContainerResult` built by the two `except` clauses
(container.py lines 177-195): a `ContainerError` takes its logs from the
available stderr, any other exception leaves logs empty; both use the
sentinel exit code 1 and `error=str(e)`. -/
def excToResult (cfg : ContainerConfig) : PyExc → ContainerResult
  | .containerError m stderr =>
    { run_id := cfg.run_id, exit_code := 1, logs := stderr.getD "",
      workspace_path := cfg.workspace_path, error := some m }
  | .other m =>
    { run_id := cfg.run_id, exit_code := 1, logs := "",
      workspace_path := cfg.workspace_path, error := some m }

/-- The `finally` block of `ContainerManager.run` (lines 196-202): if the
run's id is registered, try to force-remove the container — logging a
warning instead of failing if removal raises — and delete the map entry
either way.  Returns the new map and the warnings logged. -/
def runFinally (removeFails : Nat → Bool) (run_id : String)
    (st : List (String × Nat)) : List (String × Nat) × List String :=
  match cmLookup st run_id with
  | none => (st, [])
  | some h =>
    (cmErase st run_id,
     if removeFails h then ["Failed to remove container " ++ run_id] else [])

/-- `ContainerManager.run` (container.py lines 110-202).  `ensure_image`
runs before the `try`, so its exceptions propagate (`.error`); everything
from the launch onward is converted to a `ContainerResult`.  Returns the
call's outcome, the handle map after the `finally` block, and the warnings
logged. -/
def managerRun (b : RunBackend) (cfg : ContainerConfig)
    (st : List (String × Nat)) :
    Except PyExc ContainerResult × List (String × Nat) × List String :=
  match b.ensureImage with
  | some e => (.error e, st, [])
  | none =>
    let body : ContainerResult × List (String × Nat) :=
      match b.launch with
      | .error e => (excToResult cfg e, st)
      | .ok h =>
        let st1 := cmInsert st cfg.run_id h
        match b.waitAndStream h with
        | .error e => (excToResult cfg e, st1)
        | .ok (codeOpt, logs) =>
          ({ run_id := cfg.run_id, exit_code := codeOpt.getD 1, logs := logs,
             workspace_path := cfg.workspace_path, error := none }, st1)
    let fin := runFinally b.removeFails cfg.run_id body.2
    (.ok body.1, fin.1, fin.2)

/-- Logs attributed to an exception by the `except` clauses: available
stderr for a `ContainerError`, empty otherwise. -/
def excLogs : PyExc → String
  | .containerError _ stderr => stderr.getD ""
  | .other _ => ""

/-! ## Workspace manager (container.py, lines 311-341) -/

/-- First-match lookup in a `run_id → path` association list
(`self._workspaces`; insertions prepend, so the first match is the most
recent write, matching Python dict assignment). -/
def lookupStr : List (String × String) → String → Option String
  | [], _ => none
  | (k, v) :: rest, key => if k = key then some v else lookupStr rest key

/-- `WorkspaceManager` (container.py lines 311-316): a base path and the
map of workspaces this instance created. -/
structure WorkspaceManager where
  base_path : String
  workspaces : List (String × String)
deriving DecidableEq

/-- `WorkspaceManager.create` (lines 318-323): derive
`base_path / run_id`, create the directory, record it, return it. -/
def WorkspaceManager.create (wm : WorkspaceManager) (run_id : String) :
    String × WorkspaceManager :=
  let workspace := wm.base_path ++ "/" ++ run_id
  (workspace, { wm with workspaces := (run_id, workspace) :: wm.workspaces })

/-- `WorkspaceManager.get` (lines 325-327). -/
def WorkspaceManager.get (wm : WorkspaceManager) (run_id : String) : Option String :=
  lookupStr wm.workspaces run_id

/-! ## Experiment runner (runner.py)

The runner expands the validated configuration into run entries, then
drives them sequentially or through a bounded thread pool.  Thread-pool
completion order, per-future outcomes, and the arrival point of an
operator `KeyboardInterrupt` are oracle parameters. -/

/-- Agent entry of the validated configuration (config.py `AgentConfig`;
the `type`/`agent` fields are not read by the runner). -/
structure AgentConfig where
  id : String
  model : Option String
  extra_args : List String
deriving DecidableEq

/-- `SettingsConfig` (config.py). -/
structure SettingsConfig where
  runs_per_agent : Nat
  parallel : Bool
  timeout_minutes : Nat
deriving DecidableEq

/-- `TargetConfig` (config.py). -/
structure TargetConfig where
  repo : String
  commit : Option String
deriving DecidableEq

/-- `PromptConfig` (config.py). -/
structure PromptConfig where
  file : Option String
  text : Option String
deriving DecidableEq

/-- `BenchmarkConfig` (config.py; the `experiment` block is not read by
the expansion logic). -/
structure BenchmarkConfig where
  agents : List AgentConfig
  settings : SettingsConfig
  target : TargetConfig
  prompt : PromptConfig
deriving DecidableEq

/-- One element of the list built by `_create_run_configs`: the tuple
`(run_id, agent.id, run_num, container_config)`. -/
structure RunEntry where
  run_id : String
  agent_id : String
  run_num : Nat
  config : ContainerConfig
deriving DecidableEq

/-- The `ContainerConfig` built for one run (runner.py lines 78-88). -/
def mkContainerConfig (cfg : BenchmarkConfig) (agent : AgentConfig)
    (run_id workspace : String) : ContainerConfig :=
  { run_id := run_id,
    repo_url := cfg.target.repo,
    repo_commit := cfg.target.commit,
    prompt_file := cfg.prompt.file,
    prompt_text := cfg.prompt.text,
    model := agent.model,
    extra_args := agent.extra_args,
    timeout_seconds := cfg.settings.timeout_minutes * 60,
    workspace_path := workspace }

/-- `range(1, runs_per_agent + 1)`. -/
def runNumbers (r : Nat) : List Nat := List.range' 1 r

/-- Inner loop of `_create_run_configs` (runner.py lines 74-89): for each
run number, derive `run_id`, create the workspace, build the config. -/
def createRunsFor (cfg : BenchmarkConfig) (agent : AgentConfig) :
    List Nat → WorkspaceManager → List RunEntry × WorkspaceManager
  | [], wm => ([], wm)
  | n :: ns, wm =>
    let run_id := agent.id ++ "-" ++ toString n
    let created := wm.create run_id
    let entry : RunEntry :=
      ⟨run_id, agent.id, n, mkContainerConfig cfg agent run_id created.1⟩
    let rest := createRunsFor cfg agent ns created.2
    (entry :: rest.1, rest.2)

/-- Outer loop of `_create_run_configs` over agents in configuration
order. -/
def createRunConfigsAux (cfg : BenchmarkConfig) :
    List AgentConfig → WorkspaceManager → List RunEntry × WorkspaceManager
  | [], wm => ([], wm)
  | a :: rest, wm =>
    let first := createRunsFor cfg a (runNumbers cfg.settings.runs_per_agent) wm
    let tail := createRunConfigsAux cfg rest first.2
    (first.1 ++ tail.1, tail.2)

/-- `ExperimentRunner._create_run_configs` (runner.py lines 68-91),
threading the workspace manager state. -/
def createRunConfigs (cfg : BenchmarkConfig) (wm : WorkspaceManager) :
    List RunEntry × WorkspaceManager :=
  createRunConfigsAux cfg cfg.agents wm

/-- The entry `_create_run_configs` builds for agent `a` and run number
`n` when the workspace root is `base` (used to state the expansion's
shape). -/
def entryFor (cfg : BenchmarkConfig) (a : AgentConfig) (base : String)
    (n : Nat) : RunEntry :=
  ⟨a.id ++ "-" ++ toString n, a.id, n,
   mkContainerConfig cfg a (a.id ++ "-" ++ toString n)
     (base ++ "/" ++ (a.id ++ "-" ++ toString n))⟩

/-- The workspace-map pair recorded for agent `a` and run number `n`. -/
def pairFor (a : AgentConfig) (base : String) (n : Nat) : String × String :=
  (a.id ++ "-" ++ toString n, base ++ "/" ++ (a.id ++ "-" ++ toString n))

/-- An outcome appended to `self._results`: `(run_id, agent_id, result)`. -/
abbrev Outcome := String × String × ContainerResult

/-- The degraded outcome built when a per-run exception is caught
(runner.py lines 114-126 and 153-165). -/
def failedResult (run_id workspace msg : String) : ContainerResult :=
  { run_id := run_id, exit_code := 1, logs := "", workspace_path := workspace,
    error := some msg }

/-- Behaviour of one `_run_single` call as seen by the sequential loop:
return a result, raise an `Exception` with text `msg`, or raise
`KeyboardInterrupt` (which `except Exception` does not catch). -/
inductive RunSingleBeh where
  | ok (r : ContainerResult)
  | exc (msg : String)
  | interrupt
deriving DecidableEq

/-- `ExperimentRunner._run_sequential` (runner.py lines 146-165), with the
accumulated `self._results` threaded; returns the results and whether a
`KeyboardInterrupt` escaped the loop. -/
def runSequential (beh : String → RunSingleBeh) :
    List RunEntry → List Outcome → List Outcome × Bool
  | [], acc => (acc, false)
  | e :: rest, acc =>
    match beh e.run_id with
    | .ok r => runSequential beh rest (acc ++ [(e.run_id, e.agent_id, r)])
    | .exc m =>
      runSequential beh rest
        (acc ++ [(e.run_id, e.agent_id,
                  failedResult e.run_id e.config.workspace_path m)])
    | .interrupt => (acc, true)

/-- Result of `future.result()` for one parallel run: the value returned
by `_run_single`, or the `Exception` the worker raised. -/
inductive FutureRes where
  | ok (r : ContainerResult)
  | exc (msg : String)
deriving DecidableEq

/-- Body of one iteration of the `as_completed` loop (runner.py lines
105-126): on an exception, look the workspace up and either append a
degraded outcome or raise `RuntimeError` when no workspace exists. -/
def collectOne (wsGet : String → Option String) (acc : List Outcome)
    (rid aid : String) (fr : FutureRes) : Except String (List Outcome) :=
  match fr with
  | .ok r => .ok (acc ++ [(rid, aid, r)])
  | .exc m =>
    match wsGet rid with
    | none => .error ("No workspace for run " ++ rid)
    | some ws => .ok (acc ++ [(rid, aid, failedResult rid ws m)])

/-- The `as_completed` fan-in loop over the futures it will see (in
completion order).  `.2 = some e` means a `RuntimeError` propagated out of
the loop with the results accumulated so far left in `self._results`. -/
def parLoop (wsGet : String → Option String) (fres : String → FutureRes) :
    List (String × String) → List Outcome → List Outcome × Option String
  | [], acc => (acc, none)
  | (rid, aid) :: rest, acc =>
    match collectOne wsGet acc rid aid (fres rid) with
    | .error e => (acc, some e)
    | .ok acc2 => parLoop wsGet fres rest acc2

/-- Loop body of `_drain_completed_futures` (runner.py lines 134-144):
`collected` is the set of run ids computed once at entry; futures are
visited in submission (dict insertion) order; only completed futures are
read, and a future that raised is silently skipped. -/
def drainGo (fres : String → FutureRes) (doneAt : String → Bool)
    (collected : List String) :
    List (String × String) → List Outcome → List Outcome
  | [], acc => acc
  | (rid, aid) :: rest, acc =>
    if collected.contains rid || !doneAt rid then
      drainGo fres doneAt collected rest acc
    else
      match fres rid with
      | .ok r => drainGo fres doneAt collected rest (acc ++ [(rid, aid, r)])
      | .exc _ => drainGo fres doneAt collected rest acc

/-- `ExperimentRunner._drain_completed_futures`. -/
def drainCompleted (fres : String → FutureRes) (doneAt : String → Bool)
    (submit : List (String × String)) (acc : List Outcome) : List Outcome :=
  drainGo fres doneAt (acc.map (fun o => o.1)) submit acc

/-- The outcome one sequential iteration appends for an entry (given the
behaviour never interrupts; the `interrupt` arm is unreachable there). -/
def seqOutcome (beh : String → RunSingleBeh) (e : RunEntry) : Outcome :=
  match beh e.run_id with
  | .ok r => (e.run_id, e.agent_id, r)
  | .exc m => (e.run_id, e.agent_id, failedResult e.run_id e.config.workspace_path m)
  | .interrupt => (e.run_id, e.agent_id, failedResult e.run_id e.config.workspace_path "")

/-- The outcome one `as_completed` iteration appends for a future (given
its workspace lookup succeeds; absent lookups raise instead). -/
def parOutcome (wsGet : String → Option String) (fres : String → FutureRes)
    (p : String × String) : Outcome :=
  match fres p.1 with
  | .ok r => (p.1, p.2, r)
  | .exc m => (p.1, p.2, failedResult p.1 ((wsGet p.1).getD "") m)

/-- Whether the drain loop appends an outcome for a submitted future: not
yet collected, completed, and resolved without an exception. -/
def drainKeep (fres : String → FutureRes) (doneAt : String → Bool)
    (collected : List String) (p : String × String) : Bool :=
  !(collected.contains p.1) && doneAt p.1 &&
    (match fres p.1 with | .ok _ => true | .exc _ => false)

/-- The outcome the drain loop appends for a kept future. -/
def drainVal (fres : String → FutureRes) (p : String × String) : Outcome :=
  (p.1, p.2,
   match fres p.1 with
   | .ok r => r
   | .exc _ => failedResult p.1 "" "")

/-- Oracle for one `_run_parallel` execution: the per-future outcomes, the
order in which `as_completed` yields futures, the point at which a
`KeyboardInterrupt` arrives (`some k` = after `k` futures were processed),
and which futures are `done()` when the interrupt fires. -/
structure ParOracle where
  fres : String → FutureRes
  completion : List (String × String)
  interruptAfter : Option Nat
  doneAt : String → Bool

/-- Outcome of `_run_parallel`: the results accumulated in
`self._results`, whether a `KeyboardInterrupt` is being re-raised, and a
`RuntimeError` that propagated instead, if any. -/
structure ParOut where
  results : List Outcome
  interrupted : Bool
  propagated : Option String
deriving DecidableEq

/-- `ExperimentRunner._run_parallel` (runner.py lines 93-132): submit all
entries, drain completions, and on `KeyboardInterrupt` collect
already-done futures, cancel the rest and re-raise. -/
def runParallel (wsGet : String → Option String) (po : ParOracle)
    (entries : List RunEntry) : ParOut :=
  let submit := entries.map (fun e => (e.run_id, e.agent_id))
  let seen := match po.interruptAfter with
    | none => po.completion
    | some k => po.completion.take k
  let looped := parLoop wsGet po.fres seen []
  match looped.2 with
  | some e => { results := looped.1, interrupted := false, propagated := some e }
  | none =>
    match po.interruptAfter with
    | none => { results := looped.1, interrupted := false, propagated := none }
    | some _ =>
      { results := drainCompleted po.fres po.doneAt submit looped.1,
        interrupted := true, propagated := none }

/-! ### Sample inputs used by the witnesses -/

/-- A concrete validated configuration: two agents, two runs each. -/
def cfgW : BenchmarkConfig :=
  ⟨[⟨"a", none, []⟩, ⟨"b", some "m", ["-x"]⟩], ⟨2, true, 30⟩,
   ⟨"repo", none⟩, ⟨none, some "prompt"⟩⟩

/-- The entries `cfgW` expands to over the root `/t`. -/
def entriesW : List RunEntry := (createRunConfigs cfgW ⟨"/t", []⟩).1

/-- The workspace manager after expanding `cfgW`. -/
def wmW : WorkspaceManager := (createRunConfigs cfgW ⟨"/t", []⟩).2

/-- A per-run behaviour where run `a-1` raises and the rest return. -/
def behW : String → RunSingleBeh :=
  fun rid =>
    if rid = "a-1" then .exc "boom" else .ok ⟨rid, 0, "log", "/w", none⟩

/-- A parallel oracle completing every future in submission order, run
`a-1` failing, no interrupt. -/
def poW : ParOracle :=
  ⟨fun rid =>
     if rid = "a-1" then .exc "boom" else .ok ⟨rid, 0, "log", "/w", none⟩,
   entriesW.map (fun e => (e.run_id, e.agent_id)), none, fun _ => true⟩

/-- A parallel oracle interrupted after one completion, with only that
future done. -/
def poI : ParOracle :=
  ⟨fun rid =>
     if rid = "a-1" then .exc "boom" else .ok ⟨rid, 0, "log", "/w", none⟩,
   entriesW.map (fun e => (e.run_id, e.agent_id)), some 1,
   fun rid => rid == "a-2"⟩

/-! ## Teardown (container.py lines 301-308 and 335-340, runner.py lines
226-232)

The filesystem is a list of existing directory paths; `p` lies inside the
tree rooted at `r` when `r`'s characters are a prefix of `p`'s.
`shutil.rmtree(path, ignore_errors=True)` removes the whole subtree, or —
since errors are suppressed, never raised — leaves it in place when the
removal fails; the `fails` oracle says which.  Every primitive used by the
cleanup paths is non-raising, which is how the "cleanup never throws"
contract is realised. -/

/-- Whether path `q` lies in the subtree rooted at `p`. -/
def underPath (p q : String) : Bool := p.toList.isPrefixOf q.toList

/-- `shutil.rmtree(p, ignore_errors=True)` on filesystem `fs`. -/
def rmtreeIgnore (fails : String → Bool) (fs : List String) (p : String) :
    List String :=
  if fails p then fs else fs.filter (fun q => !underPath p q)

/-- `WorkspaceManager.cleanup` (container.py lines 335-340): best-effort
removal of every recorded workspace that still exists, then clear the
map. -/
def WorkspaceManager.cleanup (fails : String → Bool) (wm : WorkspaceManager)
    (fs : List String) : WorkspaceManager × List String :=
  let fs2 := wm.workspaces.foldl
    (fun acc p => if acc.contains p.2 then rmtreeIgnore fails acc p.2 else acc) fs
  ({ wm with workspaces := [] }, fs2)

/-- `ContainerManager.cleanup` (container.py lines 301-308): force-remove
every registered container, logging a warning when removal raises, and pop
each entry regardless.  Returns the (always empty) map and the warnings. -/
def managerCleanup (removeFails : Nat → Bool) :
    List (String × Nat) → List (String × Nat) × List String
  | [] => ([], [])
  | (rid, h) :: rest =>
    let tail := managerCleanup removeFails rest
    (tail.1,
     (if removeFails h
      then ["Failed to remove container " ++ rid ++ " during cleanup"]
      else []) ++ tail.2)

/-- Teardown-relevant state of an `ExperimentRunner`. -/
structure RunnerState where
  containers : List (String × Nat)
  workspace_manager : Option WorkspaceManager
  temp_dir : Option String

/-- `ExperimentRunner.cleanup` (runner.py lines 226-232): container
cleanup, workspace cleanup, then best-effort removal of the temp root. -/
def runnerCleanup (rmFails : String → Bool) (cFails : Nat → Bool)
    (rs : RunnerState) (fs : List String) :
    RunnerState × List String × List String :=
  let cm := managerCleanup cFails rs.containers
  let wmStep : Option WorkspaceManager × List String :=
    match rs.workspace_manager with
    | some wm =>
      let r := wm.cleanup rmFails fs
      (some r.1, r.2)
    | none => (none, fs)
  let fs3 := match rs.temp_dir with
    | some td => if wmStep.2.contains td then rmtreeIgnore rmFails wmStep.2 td
                 else wmStep.2
    | none => wmStep.2
  ({ containers := cm.1, workspace_manager := wmStep.1, temp_dir := rs.temp_dir },
   fs3, cm.2)

/-! ## Metrics extraction (agent_benchmark/metrics.py)

JSON values are modelled by `JVal`; reading and parsing a file is an
oracle `Option (Except String JVal)` (`none` = file missing, `.error` =
`json.loads` raised, `.ok v` = parsed value).  A Python `dict.get` on a
non-dict raises `AttributeError`, which the model surfaces as `.error`. -/

/-- A parsed JSON value (numbers restricted to integers, which is all the
metrics paths consume). -/
inductive JVal where
  | null
  | bool (b : Bool)
  | num (n : Int)
  | str (s : String)
  | arr (xs : List JVal)
  | obj (kvs : List (String × JVal))

/-- First-match lookup among a parsed object's key/value pairs
(`json.loads` never produces duplicate keys). -/
def jLookup : List (String × JVal) → String → Option JVal
  | [], _ => none
  | (k, v) :: rest, key => if k = key then some v else jLookup rest key

/-- Whether a `JVal` is a JSON object (a Python dict). -/
def JVal.isObj : JVal → Bool
  | .obj _ => true
  | _ => false

/-- Python `dict.get(k, default)` on a parsed value: raises
`AttributeError` unless the value is a dict. -/
def pyDictGet (v : JVal) (k : String) (dflt : JVal) : Except String JVal :=
  match v with
  | .obj kvs => .ok ((jLookup kvs k).getD dflt)
  | _ => .error "AttributeError"

namespace BMetrics

/-- `GitDiffStats` (metrics.py lines 10-16). -/
structure GitDiffStats where
  files_changed : Nat := 0
  insertions : Nat := 0
  deletions : Nat := 0
deriving DecidableEq

/-- `PlanMetrics` (metrics.py lines 19-26). -/
structure PlanMetrics where
  total_lines : Nat := 0
  sections : Nat := 0
  tasks : Nat := 0
  files_referenced : List (List Char) := []
deriving DecidableEq

/-- `RunMetrics` (metrics.py lines 29-41); `duration_seconds` keeps the
raw JSON value `container_metrics.get("duration_seconds", 0)` evaluates
to. -/
structure RunMetrics where
  run_id : String
  agent_id : String
  exit_code : Int
  duration_seconds : JVal
  has_commits : Bool
  git_diff : GitDiffStats
  plan : PlanMetrics
  token_usage : List (String × Nat)
  error : Option String

/-- `load_container_metrics` (metrics.py lines 165-173): the parsed value
of `.benchmark/metrics.json` when the file exists and parses, `{}`
otherwise.  (The parse `try` swallows only the `json.loads` failure.) -/
def load_container_metrics (mfile : Option (Except String JVal)) : JVal :=
  match mfile with
  | some (.ok v) => v
  | _ => .obj []

/-- Numeric value of a non-empty digit run. -/
def natOfDigits (ds : List Char) : Nat :=
  ds.foldl (fun acc c => acc * 10 + (c.toNat - 48)) 0

/-- `\d+` at the head: the maximal (greedy) digit run, if non-empty. -/
def eatNat (s : List Char) : Option (Nat × List Char) :=
  let ds := s.takeWhile Char.isDigit
  if ds.isEmpty then none else some (natOfDigits ds, s.drop ds.length)

/-- A literal at the head of the input. -/
def eatLit (lit s : List Char) : Option (List Char) :=
  if lit.isPrefixOf s then some (s.drop lit.length) else none

/-- `s?`: one optional literal `s`.  Greedy consumption needs no
backtracking in the diff-stat and token patterns because the character
required right after the optional `s` is never an `s`. -/
def eatOptS (s : List Char) : List Char :=
  match s with
  | 's' :: r => r
  | _ => s

/-- One optional group `(?:, (\d+) <word>s?<sign>)?` of the diff-stat
regex: its captured number (0 when the group is absent, matching
`int(match.group(i)) if match.group(i) else 0`) and the rest. -/
def optGroup (word sign : List Char) (s : List Char) : Nat × List Char :=
  match eatLit ", ".toList s with
  | none => (0, s)
  | some s1 =>
    match eatNat s1 with
    | none => (0, s)
    | some (n, s2) =>
      match eatLit word s2 with
      | none => (0, s)
      | some s3 =>
        match eatLit sign (eatOptS s3) with
        | none => (0, s)
        | some s5 => (n, s5)

/-- The diff-stat regex
`(\d+) files? changed(?:, (\d+) insertions?\(\+\))?(?:, (\d+) deletions?\(-\))?`
matched at the head of the input. -/
def diffMatchAt (s : List Char) : Option GitDiffStats :=
  match eatNat s with
  | none => none
  | some (n1, s1) =>
    match eatLit " file".toList s1 with
    | none => none
    | some s2 =>
      match eatLit " changed".toList (eatOptS s2) with
      | none => none
      | some s3 =>
        let ins := optGroup " insertion".toList "(+)".toList s3
        let del := optGroup " deletion".toList "(-)".toList ins.2
        some { files_changed := n1, insertions := ins.1, deletions := del.1 }

/-- `re.search` for the diff-stat pattern: leftmost match wins. -/
def diffSearch : List Char → Option GitDiffStats
  | [] => none
  | c :: rest =>
    match diffMatchAt (c :: rest) with
    | some st => some st
    | none => diffSearch rest

/-- Python `str.split("\n")`: always at least one (possibly empty)
piece. -/
def splitOnNl : List Char → List (List Char)
  | [] => [[]]
  | c :: rest =>
    let r := splitOnNl rest
    if c = '\n' then [] :: r else (c :: r.headD []) :: r.tail

/-- `parse_diff_stat` (metrics.py lines 96-114): search the summary (last)
line of the stripped output. -/
def parse_diff_stat (out : List Char) : GitDiffStats :=
  let lines := splitOnNl (pyStrip out)
  match diffSearch (lines.getLastD []) with
  | some st => st
  | none => {}

/-- Oracle for the two `subprocess.run` calls of `collect_git_metrics`:
each either raises or yields a return code (and, for `git diff --stat`,
its stdout). -/
structure GitOracle where
  revParse : Except String Int
  diffStat : Except String (Int × List Char)

/-- `collect_git_metrics` (metrics.py lines 67-93): the surrounding
`try/except Exception: pass` keeps whatever was assigned before a raise,
so a failing diff call leaves `has_commits` set and the stats zeroed. -/
def collect_git_metrics (g : GitOracle) : Bool × GitDiffStats :=
  match g.revParse with
  | .error _ => (false, {})
  | .ok rc =>
    let has := rc == 0
    if has then
      match g.diffStat with
      | .error _ => (has, {})
      | .ok (rc2, out) =>
        if rc2 == 0 then (has, parse_diff_stat out) else (has, {})
    else (has, {})

/-- `^#+\s` matched at a line start: the greedy hash run then one
whitespace character; returns the number of characters consumed. -/
def sectionAt (s : List Char) : Option Nat :=
  let hs := s.takeWhile (fun c => c = '#')
  if hs.isEmpty then none
  else
    match s.drop hs.length with
    | c :: _ => if isPySpace c then some (hs.length + 1) else none
    | [] => none

/-- `re.findall(r"^#+\s", content, re.MULTILINE)` match count: scan the
content tracking line starts; a found match is consumed (non-overlapping),
with `skip` characters of it still pending. -/
def countSectionsGo (skip : Nat) (atLS : Bool) : List Char → Nat
  | [] => 0
  | c :: rest =>
    match skip with
    | k + 1 => countSectionsGo k (c = '\n') rest
    | 0 =>
      if atLS then
        match sectionAt (c :: rest) with
        | some m => 1 + countSectionsGo (m - 1) (c = '\n') rest
        | none => countSectionsGo 0 (c = '\n') rest
      else countSectionsGo 0 (c = '\n') rest

/-- Number of `^#+\s` matches in a plan file. -/
def countSections (content : List Char) : Nat := countSectionsGo 0 true content

/-- `^[-*]\s\[[ x]\]` matched at a line start (a five-character match). -/
def taskAt : List Char → Bool
  | c1 :: c2 :: c3 :: c4 :: c5 :: _ =>
    (c1 = '-' || c1 = '*') && isPySpace c2 && c3 = '[' && (c4 = ' ' || c4 = 'x')
      && c5 = ']'
  | _ => false

/-- `re.findall(r"^[-*]\s\[[ x]\]", content, re.MULTILINE)` match
count. -/
def countTasksGo (skip : Nat) (atLS : Bool) : List Char → Nat
  | [] => 0
  | c :: rest =>
    match skip with
    | k + 1 => countTasksGo k (c = '\n') rest
    | 0 =>
      if atLS && taskAt (c :: rest) then 1 + countTasksGo 4 (c = '\n') rest
      else countTasksGo 0 (c = '\n') rest

/-- Number of checkbox-task matches in a plan file. -/
def countTasks (content : List Char) : Nat := countTasksGo 0 true content

/-- The backquote character (written by code point to keep the source free
of raw backquotes). -/
def btick : Char := Char.ofNat 96

/-- Lowercase ASCII letter (`[a-z]`). -/
def isLowerAlpha (c : Char) : Bool := 'a' ≤ c && c ≤ 'z'

/-- Whether the text between two backquotes matches `[^`]+\.[a-z]+`
exactly: a non-empty lowercase extension after the last dot, with a
non-empty remainder before it. -/
def validRef (content : List Char) : Bool :=
  let r := content.reverse
  let ext := r.takeWhile isLowerAlpha
  match r.drop ext.length with
  | c :: pre => c = '.' && !ext.isEmpty && !pre.isEmpty
  | [] => false

/-- A file-reference match starting at the head: the captured content and
the total match length (content plus both backquotes). -/
def refAt (s : List Char) : Option (List Char × Nat) :=
  match s with
  | c :: rest =>
    if c = btick then
      let content := rest.takeWhile (fun d => d ≠ btick)
      match rest.drop content.length with
      | _ :: _ =>
        if validRef content then some (content, content.length + 2) else none
      | [] => none
    else none
  | [] => none

/-- `re.findall` for the file-reference pattern: leftmost non-overlapping
matches; a failed attempt advances one character. -/
def refsGo (skip : Nat) : List Char → List (List Char)
  | [] => []
  | c :: rest =>
    match skip with
    | k + 1 => refsGo k rest
    | 0 =>
      match refAt (c :: rest) with
      | some (content, len) => content :: refsGo (len - 1) rest
      | none => refsGo 0 rest

/-- All file references in a plan file. -/
def findFileRefs (content : List Char) : List (List Char) :=
  refsGo 0 content

/-- `collect_plan_metrics` (metrics.py lines 117-144): the glob results
are given as the read outcome of each matched file (files failing to read
are skipped whole, since the metric updates follow the read); the final
`list(set(...))` is modelled as first-occurrence deduplication (CPython
set order is unspecified). -/
def collect_plan_metrics (files : List (Except String (List Char))) : PlanMetrics :=
  if files.isEmpty then {}
  else
    let m := files.foldl
      (fun (acc : PlanMetrics) f =>
        match f with
        | .error _ => acc
        | .ok content =>
          { acc with
            total_lines := acc.total_lines + (splitOnNl content).length,
            sections := acc.sections + countSections content,
            tasks := acc.tasks + countTasks content,
            files_referenced := acc.files_referenced ++ findFileRefs content })
      ({} : PlanMetrics)
    { m with files_referenced := m.files_referenced.eraseDups }

/-- A case-insensitive literal at the head of the input. -/
def eatLitCI : List Char → List Char → Option (List Char)
  | [], s => some s
  | _ :: _, [] => none
  | a :: ls, c :: cs => if a.toLower == c.toLower then eatLitCI ls cs else none

/-- One token pattern `<kw>[_\s]tokens?[:\s]+(\d+)` (IGNORECASE) matched
at the head; the greedy optional `s` is safe because `s` is neither `:`
nor whitespace. -/
def tokenValAt (kw s : List Char) : Option Nat :=
  match eatLitCI kw s with
  | none => none
  | some s1 =>
    match s1 with
    | [] => none
    | c :: r =>
      if c = '_' || isPySpace c then
        match eatLitCI "token".toList r with
        | none => none
        | some s3 =>
          let s4 := match s3 with
            | d :: r2 => if d.toLower == 's' then r2 else s3
            | [] => s3
          let seps := s4.takeWhile (fun d => d = ':' || isPySpace d)
          if seps.isEmpty then none
          else
            let ds := (s4.drop seps.length).takeWhile Char.isDigit
            if ds.isEmpty then none else some (natOfDigits ds)
      else none

/-- `re.search` for one token pattern: leftmost match. -/
def tokenSearch (kw : List Char) : List Char → Option Nat
  | [] => none
  | c :: rest =>
    match tokenValAt kw (c :: rest) with
    | some n => some n
    | none => tokenSearch kw rest

/-- `extract_token_usage` (metrics.py lines 147-162): first match per
category, keys inserted in pattern order. -/
def extract_token_usage (logs : List Char) : List (String × Nat) :=
  let pats : List (List Char × String) :=
    [("input".toList, "input_tokens"), ("output".toList, "output_tokens"),
     ("total".toList, "total_tokens")]
  pats.foldl
    (fun acc p =>
      match tokenSearch p.1 logs with
      | some n => acc ++ [(p.2, n)]
      | none => acc) []

/-- Whether any of the three token patterns occurs in the logs. -/
def hasTokenMarker (logs : List Char) : Bool :=
  (tokenSearch "input".toList logs).isSome
    || (tokenSearch "output".toList logs).isSome
    || (tokenSearch "total".toList logs).isSome

/-- `collect_run_metrics` (metrics.py lines 176-203).  The duration lookup
`container_metrics.get("duration_seconds", 0)` runs first and is the one
sub-step that can raise (`AttributeError` when the metrics file parsed to
a non-dict value); every later sub-step is total. -/
def collect_run_metrics (run_id agent_id : String)
    (mfile : Option (Except String JVal)) (git : GitOracle)
    (planFiles : List (Except String (List Char))) (logs : List Char)
    (exit_code : Int) (error : Option String) : Except String RunMetrics :=
  match pyDictGet (load_container_metrics mfile) "duration_seconds" (.num 0) with
  | .error e => .error e
  | .ok dur =>
    let g := collect_git_metrics git
    .ok { run_id := run_id, agent_id := agent_id, exit_code := exit_code,
          duration_seconds := dur, has_commits := g.1, git_diff := g.2,
          plan := collect_plan_metrics planFiles,
          token_usage := extract_token_usage logs, error := error }

end BMetrics

/-! ### `ExperimentRunner.run` end to end: collection of results

`_collect_results` calls `collect_run_metrics` once per collected
outcome, so modelling `run()` needs the metrics embedding above. -/

/-- Oracle for the per-run workspace state `_collect_results` reads when
computing metrics (keyed by run id): the read/parse outcome of the run's
`.benchmark/metrics.json`, the git subprocess outcomes, and the plan-file
read results.  The logs, exit code and error are not oracle inputs: they
come from the outcome's `ContainerResult`. -/
structure MetricsOracle where
  mfile : String → Option (Except String JVal)
  git : String → BMetrics.GitOracle
  planFiles : String → List (Except String (List Char))

/-- `_collect_results` (runner.py lines 189-216): for each collected
outcome, in order, one `collect_run_metrics` call followed by a
`save_metrics` write of `metrics.json`; an exception raised by
`collect_run_metrics` (the reachable `AttributeError` on a non-object
metrics file) aborts the loop, leaving the records written so far, and
escapes.  Returns the written records and the escaped exception, if
any. -/
def collectResults (mo : MetricsOracle) :
    List Outcome → List (String × BMetrics.RunMetrics) →
      List (String × BMetrics.RunMetrics) × Option String
  | [], acc => (acc, none)
  | o :: rest, acc =>
    match BMetrics.collect_run_metrics o.1 o.2.1 (mo.mfile o.1) (mo.git o.1)
        (mo.planFiles o.1) o.2.2.logs.toList o.2.2.exit_code o.2.2.error with
    | .error e => (acc, some e)
    | .ok m => collectResults mo rest (acc ++ [(o.1, m)])

/-- What `ExperimentRunner.run` has done by the time it terminates
(normally, by re-raising an interrupt, or by an exception escaping the
`finally` block): the collected results, the metrics records
`_collect_results` actually wrote (one `metrics.json` per record, in
results order), the metrics exception that aborted the write loop if
one raised, and how the run/drain phase ended. -/
structure ExperimentOut where
  results : List Outcome
  metrics : List (String × BMetrics.RunMetrics)
  metricsRaised : Option String
  interrupted : Bool
  propagated : Option String

/-- `ExperimentRunner.run` (runner.py lines 33-66): fresh workspace
manager over the temp directory, expansion, mode dispatch on
`settings.parallel`, and the `finally` block that runs `_collect_results`
over whatever is in `self._results` — one metrics write per collected
outcome when the loop completes, and a write-prefix plus an escaping
exception when some `collect_run_metrics` call raises. -/
def runExperiment (cfg : BenchmarkConfig) (base : String)
    (beh : String → RunSingleBeh) (po : ParOracle) (mo : MetricsOracle) :
    ExperimentOut :=
  let init : WorkspaceManager := { base_path := base, workspaces := [] }
  let expanded := createRunConfigs cfg init
  if cfg.settings.parallel then
    let out := runParallel expanded.2.get po expanded.1
    let written := collectResults mo out.results []
    { results := out.results, metrics := written.1,
      metricsRaised := written.2, interrupted := out.interrupted,
      propagated := out.propagated }
  else
    let s := runSequential beh expanded.1 []
    let written := collectResults mo s.1 []
    { results := s.1, metrics := written.1, metricsRaised := written.2,
      interrupted := s.2, propagated := none }

/-- A sample metrics oracle: every workspace lacks a metrics file, git
calls succeed trivially, and no plan-like files exist. -/
def moW : MetricsOracle :=
  ⟨fun _ => none, fun _ => ⟨Except.ok 1, Except.ok (0, [])⟩, fun _ => []⟩

/-- Whether an `Except` computation raised. -/
def exceptIsErr {ε α : Type} : Except ε α → Bool
  | .error _ => true
  | .ok _ => false

/-! ## act/metrics.py token aggregation (for the session-export variant)

`extract_token_usage_from_session` reads `opencode_session.json`, takes
`session["messages"]` (or the parsed value itself when it is not a dict),
and sums six token categories across messages. -/

namespace Act

/-- Python truthiness of a JSON value. -/
def jTruthy : JVal → Bool
  | .null => false
  | .bool b => b
  | .num n => n != 0
  | .str s => s != ""
  | .arr xs => !xs.isEmpty
  | .obj kvs => !kvs.isEmpty

/-- Python `a or b`. -/
def pyOrElse (a b : JVal) : JVal := if jTruthy a then a else b

/-- A JSON value used as a Python number in `+=`: ints add, bools coerce,
anything else raises `TypeError`. -/
def jAsInt : JVal → Except String Int
  | .num n => .ok n
  | .bool b => .ok (if b then 1 else 0)
  | _ => .error "TypeError"

/-- The mutable `totals` dict of `extract_token_usage_from_session`. -/
structure Totals where
  total : Int
  input : Int
  output : Int
  reasoning : Int
  cache_read : Int
  cache_write : Int
deriving DecidableEq

/-- The zero-initialised `totals` dict (act/metrics.py lines 54-61). -/
def totals0 : Totals := ⟨0, 0, 0, 0, 0, 0⟩

/-- The dict in its key insertion order. -/
def totalsToList (t : Totals) : List (String × Int) :=
  [("total", t.total), ("input", t.input), ("output", t.output),
   ("reasoning", t.reasoning), ("cache_read", t.cache_read),
   ("cache_write", t.cache_write)]

/-- `tokens.get(k, 0)` used as a number in `+=`: `AttributeError` on a
non-dict, `TypeError` on a non-numeric field. -/
def pyGetInt (v : JVal) (k : String) : Except String Int :=
  match pyDictGet v k (.num 0) with
  | .error e => .error e
  | .ok x => jAsInt x

/-- One iteration of the summation loop (act/metrics.py lines 63-73):
`tokens = (msg.get("info") or {}).get("tokens")`, skip falsy tokens,
otherwise add the six categories with default 0 (the statements run in
source order, so the first raising step's exception propagates). -/
def addMsg (t : Totals) (msg : JVal) : Except String Totals :=
  match pyDictGet msg "info" .null with
  | .error e => .error e
  | .ok info =>
    match pyDictGet (pyOrElse info (.obj [])) "tokens" .null with
    | .error e => .error e
    | .ok tokens =>
      if jTruthy tokens then
        match pyGetInt tokens "total" with
        | .error e => .error e
        | .ok tot =>
          match pyGetInt tokens "input" with
          | .error e => .error e
          | .ok inp =>
            match pyGetInt tokens "output" with
            | .error e => .error e
            | .ok outp =>
              match pyGetInt tokens "reasoning" with
              | .error e => .error e
              | .ok rea =>
                match pyDictGet tokens "cache" .null with
                | .error e => .error e
                | .ok cache0 =>
                  match pyGetInt (pyOrElse cache0 (.obj [])) "read" with
                  | .error e => .error e
                  | .ok rd =>
                    match pyGetInt (pyOrElse cache0 (.obj [])) "write" with
                    | .error e => .error e
                    | .ok wr =>
                      .ok { total := t.total + tot, input := t.input + inp,
                            output := t.output + outp,
                            reasoning := t.reasoning + rea,
                            cache_read := t.cache_read + rd,
                            cache_write := t.cache_write + wr }
      else
        .ok t

/-- The `messages` value the `try` block computes, or `none` when reading
or parsing `opencode_session.json` raised (→ `return {}`). -/
def sessionMessages (sessionFile : Option (Except String JVal)) : Option JVal :=
  match sessionFile with
  | some (.ok v) =>
    match v with
    | .obj kvs => some ((jLookup kvs "messages").getD (.arr []))
    | _ => some v
  | _ => none

/-- `extract_token_usage_from_session` (act/metrics.py lines 42-75).
Iterating a non-list `messages` follows Python: a string or dict iterates
its characters/keys — which are strings, so the first `msg.get` raises
`AttributeError` unless the iterable is empty — and other scalars raise
`TypeError`. -/
def extract_token_usage_from_session
    (sessionFile : Option (Except String JVal)) :
    Except String (List (String × Int)) :=
  match sessionMessages sessionFile with
  | none => .ok []
  | some msgs =>
    match msgs with
    | .arr ms =>
      match ms.foldlM addMsg totals0 with
      | .error e => .error e
      | .ok t => .ok (totalsToList t)
    | .str s => if s = "" then .ok (totalsToList totals0) else .error "AttributeError"
    | .obj kvs =>
      if kvs.isEmpty then .ok (totalsToList totals0) else .error "AttributeError"
    | _ => .error "TypeError"

/-- Componentwise sum of two totals. -/
def addTot (a b : Totals) : Totals :=
  ⟨a.total + b.total, a.input + b.input, a.output + b.output,
   a.reasoning + b.reasoning, a.cache_read + b.cache_read,
   a.cache_write + b.cache_write⟩

/-- An optional token field is absent or an integer. -/
def optNumOk : Option JVal → Bool
  | none => true
  | some (.num _) => true
  | some _ => false

/-- The numeric value of an optional token field, absent meaning 0. -/
def optNum : Option JVal → Int
  | some (.num n) => n
  | _ => 0

/-- A `cache` entry is absent, `null`, or an object with numeric
`read`/`write` fields. -/
def cacheOk : Option JVal → Bool
  | none => true
  | some .null => true
  | some (.obj ckvs) =>
    optNumOk (jLookup ckvs "read") && optNumOk (jLookup ckvs "write")
  | some _ => false

/-- A `tokens` entry is absent, `null`, or an object with numeric
top-level fields and a well-formed cache. -/
def tokensOk : Option JVal → Bool
  | none => true
  | some .null => true
  | some (.obj tkvs) =>
    optNumOk (jLookup tkvs "total") && optNumOk (jLookup tkvs "input") &&
    optNumOk (jLookup tkvs "output") && optNumOk (jLookup tkvs "reasoning") &&
    cacheOk (jLookup tkvs "cache")
  | some _ => false

/-- A well-formed message entry: an object whose `info` is absent, `null`
or an object carrying a well-formed `tokens` entry. -/
def msgWF : JVal → Bool
  | .obj kvs =>
    match jLookup kvs "info" with
    | none => true
    | some .null => true
    | some (.obj ikvs) => tokensOk (jLookup ikvs "tokens")
    | some _ => false
  | _ => false

/-- A sample message (the first entry of the repository's own test
vector). -/
def msgW1 : JVal :=
  .obj [("info", .obj [("tokens", .obj
    [("total", .num 100), ("input", .num 10), ("output", .num 50),
     ("reasoning", .num 0),
     ("cache", .obj [("read", .num 30), ("write", .num 10)])])])]

/-- A second sample message. -/
def msgW2 : JVal :=
  .obj [("info", .obj [("tokens", .obj
    [("total", .num 200), ("input", .num 20), ("output", .num 100),
     ("reasoning", .num 5),
     ("cache", .obj [("read", .num 60), ("write", .num 15)])])])]

/-- Modelled from the spec's words: the token contribution of one message
— each of the six categories read from the message's token breakdown,
absent fields counting as 0, and everything 0 for a message that carries
no token data. -/
def specMsgTokens : JVal → Totals
  | .obj kvs =>
    match jLookup kvs "info" with
    | some (.obj ikvs) =>
      match jLookup ikvs "tokens" with
      | some (.obj tkvs) =>
        { total := optNum (jLookup tkvs "total"),
          input := optNum (jLookup tkvs "input"),
          output := optNum (jLookup tkvs "output"),
          reasoning := optNum (jLookup tkvs "reasoning"),
          cache_read :=
            match jLookup tkvs "cache" with
            | some (.obj ckvs) => optNum (jLookup ckvs "read")
            | _ => 0,
          cache_write :=
            match jLookup tkvs "cache" with
            | some (.obj ckvs) => optNum (jLookup ckvs "write")
            | _ => 0 }
      | _ => totals0
    | _ => totals0
  | _ => totals0

end Act

/-! ## Theorems: activity-line filtering (C6, C10) -/

/-- The parse succeeds exactly on the cleaned line when it starts with a
tool marker. -/
theorem parse_some_iff (raw s : List Char) :
    parse_activity_line raw = some s ↔
      s = pyStrip (ansiStrip raw)
        ∧ toolMarkers.any (fun p => p.isPrefixOf s) = true := by
  show (if toolMarkers.any (fun p => p.isPrefixOf (pyStrip (ansiStrip raw)))
        then some (pyStrip (ansiStrip raw)) else none) = some s ↔ _
  split
  · next h =>
    constructor
    · intro he
      cases he
      exact ⟨rfl, h⟩
    · rintro ⟨rfl, _⟩
      rfl
  · next h =>
    constructor
    · intro he
      cases he
    · rintro ⟨rfl, hs⟩
      exact absurd hs h

/-- Every tool marker is a non-empty string. -/
theorem toolMarkers_ne_nil : ∀ p ∈ toolMarkers, p ≠ [] := by decide

/-- A parsed activity line is non-empty (it extends a marker). -/
theorem parse_ne_nil {raw s : List Char}
    (h : parse_activity_line raw = some s) : s ≠ [] := by
  obtain ⟨-, hany⟩ := (parse_some_iff raw s).1 h
  obtain ⟨p, hp, hpre⟩ := List.any_eq_true.1 hany
  obtain ⟨t, rfl⟩ := List.isPrefixOf_iff_prefix.1 hpre
  have hne := toolMarkers_ne_nil p hp
  cases p with
  | nil => exact absurd rfl hne
  | cons a q => simp

/-- The streaming loop retains every chunk in `all_logs` and forwards
exactly the chunks the parser accepts. -/
theorem streamChunks_spec (chunks : List (List Char)) :
    (streamChunks chunks).1 = chunks
      ∧ (streamChunks chunks).2 = chunks.filterMap parse_activity_line := by
  induction chunks with
  | nil => exact ⟨rfl, rfl⟩
  | cons t rest ih =>
    refine ⟨by simpa [streamChunks] using ih.1, ?_⟩
    cases h : parse_activity_line t with
    | none =>
      simp only [streamChunks, h, List.filterMap_cons_none h]
      exact ih.2
    | some a =>
      have hne : a.isEmpty = false := by
        simpa [List.isEmpty_iff] using parse_ne_nil h
      simp only [streamChunks, h, hne, List.filterMap_cons_some h]
      simpa using ih.2

/-- C6 (activity-line filtering): the filter strips escapes and
whitespace and forwards the cleaned line exactly when it begins with a
recognized tool marker; the two concrete lines from the spec behave as
stated; every chunk, matching or not, is retained in the captured
output. -/
theorem C6_activity_filtering :
    parse_activity_line ("\x1b[32m✱ Glob\x1b[0m found 3 files".toList)
        = some ("✱ Glob found 3 files".toList)
      ∧ parse_activity_line ("Starting benchmark run...".toList) = none
      ∧ (∀ raw s, parse_activity_line raw = some s ↔
          s = pyStrip (ansiStrip raw)
            ∧ toolMarkers.any (fun p => p.isPrefixOf s) = true)
      ∧ (∀ chunks, (streamChunks chunks).1 = chunks
          ∧ (streamChunks chunks).2 = chunks.filterMap parse_activity_line) :=
  ⟨by decide, by decide, parse_some_iff, streamChunks_spec⟩

/-- C10 counterexample: the single `re.sub` pass does not iterate to a
fixpoint, so removing one escape sequence can splice a new one together;
the spliced line passes the marker check and is returned still containing
a CSI escape sequence. -/
theorem C10_counterexample :
    parse_activity_line ("✱ a\x1b\x1b[0m[0m".toList)
        = some ("✱ a\x1b[0m".toList)
      ∧ hasAnsi ("✱ a\x1b[0m".toList) = true := by
  exact ⟨by decide, by decide⟩

/-- Heads of `dropWhile` results falsify the predicate. -/
theorem head?_dropWhile_false {p : Char → Bool} {l : List Char} {c : Char}
    (h : (l.dropWhile p).head? = some c) : p c = false := by
  have hm := List.head?_dropWhile_not p l
  rw [h] at hm
  exact hm

/-- A non-empty `dropWhile` keeps the original last element. -/
theorem getLast?_dropWhile_ne_nil {p : Char → Bool} {l : List Char}
    (h : l.dropWhile p ≠ []) : (l.dropWhile p).getLast? = l.getLast? := by
  induction l with
  | nil => simp at h
  | cons a l ih =>
    by_cases hp : p a
    · rw [List.dropWhile_cons_of_pos hp] at h ⊢
      have hl : l ≠ [] := by
        intro he
        subst he
        simp at h
      rw [ih h, List.getLast?_cons]
      cases l with
      | nil => exact absurd rfl hl
      | cons b m => simp [List.getLast?_cons]
    · rw [List.dropWhile_cons_of_neg hp]

/-- The head of a stripped string is not whitespace. -/
theorem pyStrip_head {s : List Char} {c : Char}
    (h : (pyStrip s).head? = some c) : isPySpace c = false := by
  unfold pyStrip at h
  rw [List.head?_reverse] at h
  have hne : (s.dropWhile isPySpace).reverse.dropWhile isPySpace ≠ [] := by
    intro he
    rw [he] at h
    simp at h
  rw [getLast?_dropWhile_ne_nil hne, List.getLast?_reverse] at h
  exact head?_dropWhile_false h

/-- The last character of a stripped string is not whitespace. -/
theorem pyStrip_getLast {s : List Char} {c : Char}
    (h : (pyStrip s).getLast? = some c) : isPySpace c = false := by
  unfold pyStrip at h
  rw [List.getLast?_reverse] at h
  exact head?_dropWhile_false h

/-- C10 amended (shape of `parse_activity_line`): the parser is total and
returns `None` or a non-empty marker-prefixed string equal to the
single-pass escape-stripped, whitespace-stripped input, with no leading
or trailing whitespace — but possibly still containing an escape sequence
spliced together by the removal (see the counterexample). -/
theorem C10_parse_shape (raw : List Char) :
    parse_activity_line raw = none
      ∨ ∃ s, parse_activity_line raw = some s
          ∧ s ≠ []
          ∧ toolMarkers.any (fun p => p.isPrefixOf s) = true
          ∧ s = pyStrip (ansiStrip raw)
          ∧ (∀ c, s.head? = some c → isPySpace c = false)
          ∧ (∀ c, s.getLast? = some c → isPySpace c = false) := by
  cases h : parse_activity_line raw with
  | none => exact Or.inl rfl
  | some s =>
    obtain ⟨hs, hany⟩ := (parse_some_iff raw s).1 h
    refine Or.inr ⟨s, rfl, parse_ne_nil h, hany, hs, ?_, ?_⟩
    · intro c hc
      exact pyStrip_head (by rwa [hs] at hc)
    · intro c hc
      exact pyStrip_getLast (by rwa [hs] at hc)

/-! ## Theorems: execution-handle release and the backend boundary
(C3, C5) -/

/-- Erasing a key removes it from the handle map. -/
theorem cmLookup_erase (st : List (String × Nat)) (k : String) :
    cmLookup (cmErase st k) k = none := by
  induction st with
  | nil => rfl
  | cons p rest ih =>
    by_cases hk : p.1 = k
    · simpa [cmErase, cmLookup, List.filter, hk] using ih
    · simpa [cmErase, cmLookup, List.filter, hk] using ih

/-- After the `finally` block the run's id is gone from the map. -/
theorem runFinally_lookup (rf : Nat → Bool) (rid : String)
    (st : List (String × Nat)) :
    cmLookup (runFinally rf rid st).1 rid = none := by
  unfold runFinally
  cases h : cmLookup st rid with
  | none => simpa using h
  | some hdl => simpa using cmLookup_erase st rid

/-- The map produced by the `finally` block does not depend on whether
removal raised. -/
theorem runFinally_fails_indep (f g : Nat → Bool) (rid : String)
    (st : List (String × Nat)) :
    (runFinally f rid st).1 = (runFinally g rid st).1 := by
  unfold runFinally
  cases cmLookup st rid <;> rfl

/-- C3 (execution-handle release): whenever `ensure_image` succeeds,
`ContainerManager.run` returns (rather than raising), its run id is not a
key of the handle map afterwards on any exit path, the returned outcome
and final map are independent of whether the force-removal raised, and a
failing removal of a registered handle is logged as a warning rather than
failing the call. -/
theorem C3_handle_release (b : RunBackend) (cfg : ContainerConfig)
    (st : List (String × Nat)) (h : b.ensureImage = none) :
    (∃ res, (managerRun b cfg st).1 = .ok res)
      ∧ cmLookup (managerRun b cfg st).2.1 cfg.run_id = none
      ∧ (∀ f g : Nat → Bool,
          (managerRun { b with removeFails := f } cfg st).1
              = (managerRun { b with removeFails := g } cfg st).1
            ∧ (managerRun { b with removeFails := f } cfg st).2.1
              = (managerRun { b with removeFails := g } cfg st).2.1)
      ∧ (∀ hdl, b.launch = .ok hdl → b.removeFails hdl = true →
          (managerRun b cfg st).2.2
            = ["Failed to remove container " ++ cfg.run_id]) := by
  refine ⟨?_, ?_, ?_, ?_⟩
  · unfold managerRun
    rw [h]
    exact ⟨_, rfl⟩
  · unfold managerRun
    rw [h]
    exact runFinally_lookup _ _ _
  · intro f g
    constructor
    · simp only [managerRun, h]
    · simp only [managerRun, h]
      exact runFinally_fails_indep f g cfg.run_id _
  · intro hdl hL hrf
    simp only [managerRun, h, hL, runFinally]
    cases hw : b.waitAndStream hdl with
    | error e => simp [cmInsert, cmLookup, hrf]
    | ok v => simp [cmInsert, cmLookup, hrf]

/-- Witness for C3 at a concrete backend, configuration and pre-state. -/
theorem C3_handle_release_witness :
    (RunBackend.mk none (.ok 7) (fun _ => .ok (some 0, "out"))
        (fun _ => true)).ensureImage = none
      ∧ ((∃ res,
            (managerRun
              (RunBackend.mk none (.ok 7) (fun _ => .ok (some 0, "out"))
                (fun _ => true))
              (ContainerConfig.mk "a-1" "repo" none none (some "p") none []
                60 "/tmp/ws") []).1 = .ok res)
          ∧ cmLookup
              (managerRun
                (RunBackend.mk none (.ok 7) (fun _ => .ok (some 0, "out"))
                  (fun _ => true))
                (ContainerConfig.mk "a-1" "repo" none none (some "p") none []
                  60 "/tmp/ws") []).2.1 "a-1" = none
          ∧ (∀ f g : Nat → Bool,
              (managerRun
                  { RunBackend.mk none (.ok 7) (fun _ => .ok (some 0, "out"))
                      (fun _ => true) with removeFails := f }
                  (ContainerConfig.mk "a-1" "repo" none none (some "p") none []
                    60 "/tmp/ws") []).1
                = (managerRun
                    { RunBackend.mk none (.ok 7) (fun _ => .ok (some 0, "out"))
                        (fun _ => true) with removeFails := g }
                    (ContainerConfig.mk "a-1" "repo" none none (some "p") none []
                      60 "/tmp/ws") []).1
              ∧ (managerRun
                    { RunBackend.mk none (.ok 7) (fun _ => .ok (some 0, "out"))
                        (fun _ => true) with removeFails := f }
                    (ContainerConfig.mk "a-1" "repo" none none (some "p") none []
                      60 "/tmp/ws") []).2.1
                = (managerRun
                    { RunBackend.mk none (.ok 7) (fun _ => .ok (some 0, "out"))
                        (fun _ => true) with removeFails := g }
                    (ContainerConfig.mk "a-1" "repo" none none (some "p") none []
                      60 "/tmp/ws") []).2.1)
          ∧ (∀ hdl,
              (RunBackend.mk none (.ok 7) (fun _ => .ok (some 0, "out"))
                  (fun _ => true)).launch = .ok hdl →
              (RunBackend.mk none (.ok 7) (fun _ => .ok (some 0, "out"))
                  (fun _ => true)).removeFails hdl = true →
              (managerRun
                  (RunBackend.mk none (.ok 7) (fun _ => .ok (some 0, "out"))
                    (fun _ => true))
                  (ContainerConfig.mk "a-1" "repo" none none (some "p") none []
                    60 "/tmp/ws") []).2.2
                = ["Failed to remove container " ++ "a-1"])) :=
  ⟨rfl, C3_handle_release _ _ _ rfl⟩

/-- C5 counterexample: `ensure_image` runs inside `ContainerManager.run`
but before the `try` block, so a failure while building the image
propagates out of `run` instead of being converted to a
`ContainerResult`. -/
theorem C5_counterexample :
    (managerRun
        (RunBackend.mk (some (.other "image build failed")) (.ok 0)
          (fun _ => .ok (some 0, "")) (fun _ => false))
        (ContainerConfig.mk "a-1" "repo" none none (some "p") none []
          60 "/tmp/ws") []).1
      = .error (.other "image build failed") := rfl

/-- C5 amended (backend boundary classification): once the image step has
succeeded, every failure in the launch-stream-wait block yields a
returned `ContainerResult` with `exit_code` 1, `error` set to the
exception text and logs taken from available stderr for a
container-level error (empty otherwise); a normal exit yields the waited
status code (defaulting to 1 when absent) with `error` unset.  Failures
in `ensure_image` itself, which runs before the guarded block, propagate
(see the counterexample). -/
theorem C5_backend_boundary (b : RunBackend) (cfg : ContainerConfig)
    (st : List (String × Nat)) (h : b.ensureImage = none) :
    ∃ r, (managerRun b cfg st).1 = .ok r
      ∧ r.run_id = cfg.run_id
      ∧ r.workspace_path = cfg.workspace_path
      ∧ (∀ e, b.launch = .error e →
          r.exit_code = 1 ∧ r.error = some e.msg ∧ r.logs = excLogs e)
      ∧ (∀ hdl e, b.launch = .ok hdl → b.waitAndStream hdl = .error e →
          r.exit_code = 1 ∧ r.error = some e.msg ∧ r.logs = excLogs e)
      ∧ (∀ hdl codeOpt logs, b.launch = .ok hdl →
          b.waitAndStream hdl = .ok (codeOpt, logs) →
          r.exit_code = codeOpt.getD 1 ∧ r.error = none ∧ r.logs = logs) := by
  cases hL : b.launch with
  | error e =>
    refine ⟨excToResult cfg e, ?_, ?_, ?_, ?_, ?_, ?_⟩
    · simp only [managerRun, h, hL]
    · cases e <;> rfl
    · cases e <;> rfl
    · intro e2 he2
      injection he2 with he
      subst he
      cases e <;> exact ⟨rfl, rfl, rfl⟩
    · intro hdl e2 hok
      simp at hok
    · intro hdl codeOpt logs hok
      simp at hok
  | ok hdl =>
    cases hw : b.waitAndStream hdl with
    | error e =>
      refine ⟨excToResult cfg e, ?_, ?_, ?_, ?_, ?_, ?_⟩
      · simp only [managerRun, h, hL, hw]
      · cases e <;> rfl
      · cases e <;> rfl
      · intro e2 he2
        simp at he2
      · intro hdl2 e2 hok hw2
        injection hok with hh
        subst hh
        rw [hw] at hw2
        injection hw2 with he
        subst he
        cases e <;> exact ⟨rfl, rfl, rfl⟩
      · intro hdl2 codeOpt logs hok hw2
        injection hok with hh
        subst hh
        rw [hw] at hw2
        simp at hw2
    | ok v =>
      refine ⟨{ run_id := cfg.run_id, exit_code := v.1.getD 1, logs := v.2,
                workspace_path := cfg.workspace_path, error := none },
              ?_, rfl, rfl, ?_, ?_, ?_⟩
      · simp only [managerRun, h, hL, hw]
      · intro e2 he2
        simp at he2
      · intro hdl2 e2 hok hw2
        injection hok with hh
        subst hh
        rw [hw] at hw2
        simp at hw2
      · intro hdl2 codeOpt logs hok hw2
        injection hok with hh
        subst hh
        rw [hw] at hw2
        injection hw2 with hv
        subst hv
        exact ⟨rfl, rfl, rfl⟩

/-- Witness for C5 at a concrete backend whose wait raises (a timeout). -/
theorem C5_backend_boundary_witness :
    (RunBackend.mk none (.ok 3)
        (fun _ => .error (.other "timed out")) (fun _ => false)).ensureImage
        = none
      ∧ ∃ r, (managerRun
            (RunBackend.mk none (.ok 3)
              (fun _ => .error (.other "timed out")) (fun _ => false))
            (ContainerConfig.mk "b-2" "repo" none (some "f") none none []
              30 "/tmp/w2") []).1 = .ok r
          ∧ r.run_id = "b-2"
          ∧ r.workspace_path = "/tmp/w2"
          ∧ (∀ e, (RunBackend.mk none (.ok 3)
                (fun _ => .error (.other "timed out"))
                (fun _ => false)).launch = .error e →
              r.exit_code = 1 ∧ r.error = some e.msg ∧ r.logs = excLogs e)
          ∧ (∀ hdl e, (RunBackend.mk none (.ok 3)
                (fun _ => .error (.other "timed out"))
                (fun _ => false)).launch = .ok hdl →
              (RunBackend.mk none (.ok 3)
                (fun _ => .error (.other "timed out"))
                (fun _ => false)).waitAndStream hdl = .error e →
              r.exit_code = 1 ∧ r.error = some e.msg ∧ r.logs = excLogs e)
          ∧ (∀ hdl codeOpt logs, (RunBackend.mk none (.ok 3)
                (fun _ => .error (.other "timed out"))
                (fun _ => false)).launch = .ok hdl →
              (RunBackend.mk none (.ok 3)
                (fun _ => .error (.other "timed out"))
                (fun _ => false)).waitAndStream hdl = .ok (codeOpt, logs) →
              r.exit_code = codeOpt.getD 1 ∧ r.error = none
                ∧ r.logs = logs) :=
  ⟨rfl, C5_backend_boundary _ _ _ rfl⟩

/-! ## Theorems: expansion and scheduling (C4, C1, C2) -/

/-- Closed form of the inner expansion loop: the entries in run-number
order, and the workspace pairs pushed (most recent first) onto the
manager's map. -/
theorem createRunsFor_spec (cfg : BenchmarkConfig) (a : AgentConfig)
    (ns : List Nat) (wm : WorkspaceManager) :
    createRunsFor cfg a ns wm
      = (ns.map (entryFor cfg a wm.base_path),
         { wm with workspaces :=
             (ns.map (pairFor a wm.base_path)).reverse ++ wm.workspaces }) := by
  induction ns generalizing wm with
  | nil => simp [createRunsFor]
  | cons n ns ih =>
    simp only [createRunsFor, WorkspaceManager.create, ih, List.map_cons,
      List.reverse_cons, List.append_assoc, List.singleton_append, entryFor,
      pairFor]

/-- Closed form of the whole expansion: agents in configuration order,
run numbers `1..R` inside each. -/
theorem createRunConfigsAux_spec (cfg : BenchmarkConfig)
    (agents : List AgentConfig) (wm : WorkspaceManager) :
    createRunConfigsAux cfg agents wm
      = (agents.flatMap (fun a =>
           (runNumbers cfg.settings.runs_per_agent).map
             (entryFor cfg a wm.base_path)),
         { wm with workspaces :=
             (agents.flatMap (fun a =>
               (runNumbers cfg.settings.runs_per_agent).map
                 (pairFor a wm.base_path))).reverse ++ wm.workspaces }) := by
  induction agents generalizing wm with
  | nil => simp [createRunConfigsAux]
  | cons a agents ih =>
    simp only [createRunConfigsAux, createRunsFor_spec, ih, List.flatMap_cons,
      List.reverse_append, List.append_assoc]

/-- `_create_run_configs` on the fresh workspace manager `run()`
creates. -/
theorem createRunConfigs_spec (cfg : BenchmarkConfig) (base : String) :
    createRunConfigs cfg ⟨base, []⟩
      = (cfg.agents.flatMap (fun a =>
           (runNumbers cfg.settings.runs_per_agent).map (entryFor cfg a base)),
         ⟨base, (cfg.agents.flatMap (fun a =>
           (runNumbers cfg.settings.runs_per_agent).map
             (pairFor a base))).reverse⟩) := by
  simpa [createRunConfigs] using
    createRunConfigsAux_spec cfg cfg.agents ⟨base, []⟩

/-- Lookup in a map whose values are determined by their keys. -/
theorem lookupStr_keyed (f : String → String) (l : List (String × String))
    (hl : ∀ p ∈ l, p.2 = f p.1) (k : String) (hk : k ∈ l.map Prod.fst) :
    lookupStr l k = some (f k) := by
  induction l with
  | nil => simp at hk
  | cons p rest ih =>
    obtain ⟨k2, v2⟩ := p
    by_cases hpk : k2 = k
    · have hv := hl (k2, v2) (by simp)
      subst hpk
      simp only [lookupStr, if_pos rfl]
      simpa using hv
    · simp only [lookupStr, if_neg hpk]
      apply ih
      · intro q hq
        exact hl q (List.mem_cons_of_mem _ hq)
      · simp only [List.map_cons, List.mem_cons] at hk
        rcases hk with hk | hk
        · exact absurd hk.symm hpk
        · exact hk

/-- After expansion, every produced entry's workspace is registered under
its run id: `wm.get run_id` returns exactly the path stored in the
entry's container config. -/
theorem wmGet_covers (cfg : BenchmarkConfig) (base : String)
    (entries : List RunEntry) (wm : WorkspaceManager)
    (hE : createRunConfigs cfg ⟨base, []⟩ = (entries, wm)) :
    ∀ e ∈ entries, wm.get e.run_id = some (base ++ "/" ++ e.run_id) := by
  rw [createRunConfigs_spec] at hE
  obtain ⟨hents, hwm⟩ := Prod.mk.injEq .. ▸ hE
  intro e he
  subst hwm
  apply lookupStr_keyed (fun k => base ++ "/" ++ k)
  · intro p hp
    simp only [WorkspaceManager.get, List.mem_reverse, List.mem_flatMap,
      List.mem_map] at hp ⊢
    obtain ⟨a, -, n, -, rfl⟩ := hp
    rfl
  · subst hents
    simp only [List.mem_flatMap, List.mem_map] at he
    obtain ⟨a, ha, n, hn, rfl⟩ := he
    simp only [List.map_reverse, List.mem_reverse, List.mem_map,
      List.mem_flatMap]
    exact ⟨pairFor a base n, ⟨a, ha, n, hn, rfl⟩, rfl⟩

/-- The workspace path recorded in each expanded entry. -/
theorem entry_workspace (cfg : BenchmarkConfig) (a : AgentConfig)
    (base : String) (n : Nat) :
    (entryFor cfg a base n).config.workspace_path
      = base ++ "/" ++ (entryFor cfg a base n).run_id := rfl

/-- Uniform-length `flatMap` length. -/
theorem flatMap_uniform_length {α β : Type} (R : Nat) (f : α → List β)
    (hf : ∀ a, (f a).length = R) (l : List α) :
    (l.flatMap f).length = l.length * R := by
  induction l with
  | nil => simp
  | cons x xs ih =>
    simp only [List.flatMap_cons, List.length_append, hf, ih,
      List.length_cons, Nat.succ_mul]
    omega

/-- Indexing a uniform-length `flatMap`. -/
theorem flatMap_uniform_getElem {α β : Type} (R : Nat) (f : α → List β)
    (hf : ∀ a, (f a).length = R) (l : List α) :
    ∀ (i j : Nat), j < R → ∀ a, l[i]? = some a →
      (l.flatMap f)[i * R + j]? = (f a)[j]? := by
  induction l with
  | nil =>
    intro i j _ a ha
    simp at ha
  | cons x xs ih =>
    intro i j hj a ha
    cases i with
    | zero =>
      rw [List.getElem?_cons_zero] at ha
      cases ha
      rw [List.flatMap_cons]
      rw [List.getElem?_append_left (by rw [hf]; omega)]
      simp
    | succ i =>
      rw [List.getElem?_cons_succ] at ha
      rw [List.flatMap_cons,
        List.getElem?_append_right (by rw [hf, Nat.succ_mul]; omega)]
      have harith : (i + 1) * R + j - (f x).length = i * R + j := by
        rw [hf, Nat.succ_mul]
        omega
      rw [harith]
      exact ih i j hj a ha

/-- Sequential loop with no interrupt: exactly one outcome per entry, in
entry order. -/
theorem runSequential_no_interrupt (beh : String → RunSingleBeh)
    (entries : List RunEntry) (acc : List Outcome)
    (h : ∀ e ∈ entries, beh e.run_id ≠ .interrupt) :
    runSequential beh entries acc
      = (acc ++ entries.map (seqOutcome beh), false) := by
  induction entries generalizing acc with
  | nil => simp [runSequential]
  | cons e rest ih =>
    have he := h e (by simp)
    cases hb : beh e.run_id with
    | ok r =>
      simp only [runSequential, hb, List.map_cons, seqOutcome]
      rw [ih _ (fun x hx => h x (List.mem_cons_of_mem e hx))]
      simp [hb]
    | exc m =>
      simp only [runSequential, hb, List.map_cons, seqOutcome]
      rw [ih _ (fun x hx => h x (List.mem_cons_of_mem e hx))]
      simp [hb]
    | interrupt => exact absurd hb he

/-- Sequential loop in general: some prefix of the entries is processed
(all of them when no interrupt fires). -/
theorem runSequential_prefix (beh : String → RunSingleBeh)
    (entries : List RunEntry) (acc : List Outcome) :
    ∃ pre, pre <+: entries
      ∧ (runSequential beh entries acc).1
          = acc ++ pre.map (seqOutcome beh) := by
  induction entries generalizing acc with
  | nil => exact ⟨[], List.prefix_rfl, by simp [runSequential]⟩
  | cons e rest ih =>
    cases hb : beh e.run_id with
    | ok r =>
      obtain ⟨pre, hpre, heq⟩ := ih (acc ++ [(e.run_id, e.agent_id, r)])
      refine ⟨e :: pre, by simpa using hpre, ?_⟩
      simp only [runSequential, hb, heq, List.map_cons, seqOutcome, hb]
      simp
    | exc m =>
      obtain ⟨pre, hpre, heq⟩ :=
        ih (acc ++ [(e.run_id, e.agent_id,
             failedResult e.run_id e.config.workspace_path m)])
      refine ⟨e :: pre, by simpa using hpre, ?_⟩
      simp only [runSequential, hb, heq, List.map_cons, seqOutcome, hb]
      simp
    | interrupt =>
      exact ⟨[], List.nil_prefix, by simp [runSequential, hb]⟩

/-- Fan-in loop when every processed future has a registered workspace:
one outcome per future, no `RuntimeError`. -/
theorem parLoop_covered (wsGet : String → Option String)
    (fres : String → FutureRes) (order : List (String × String))
    (acc : List Outcome)
    (h : ∀ p ∈ order, (wsGet p.1).isSome) :
    parLoop wsGet fres order acc
      = (acc ++ order.map (parOutcome wsGet fres), none) := by
  induction order generalizing acc with
  | nil => simp [parLoop]
  | cons p rest ih =>
    obtain ⟨rid, aid⟩ := p
    cases hf : fres rid with
    | ok r =>
      simp only [parLoop, collectOne, hf, List.map_cons, parOutcome]
      rw [ih _ (fun q hq => h q (List.mem_cons_of_mem _ hq))]
      simp [hf]
    | exc m =>
      have hs := h (rid, aid) (by simp)
      cases hw : wsGet rid with
      | none => rw [hw] at hs; simp at hs
      | some ws =>
        simp only [parLoop, collectOne, hf, hw, List.map_cons, parOutcome]
        rw [ih _ (fun q hq => h q (List.mem_cons_of_mem _ hq))]
        simp [hf, hw]

/-- Fan-in loop in general: some prefix of the seen futures is
collected. -/
theorem parLoop_prefix (wsGet : String → Option String)
    (fres : String → FutureRes) (order : List (String × String))
    (acc : List Outcome) :
    ∃ pre, pre <+: order
      ∧ (parLoop wsGet fres order acc).1
          = acc ++ pre.map (parOutcome wsGet fres) := by
  induction order generalizing acc with
  | nil => exact ⟨[], List.prefix_rfl, by simp [parLoop]⟩
  | cons p rest ih =>
    obtain ⟨rid, aid⟩ := p
    cases hf : fres rid with
    | ok r =>
      obtain ⟨pre, hpre, heq⟩ := ih (acc ++ [(rid, aid, r)])
      refine ⟨(rid, aid) :: pre, by simpa using hpre, ?_⟩
      simp only [parLoop, collectOne, hf, heq, List.map_cons, parOutcome]
      simp [hf]
    | exc m =>
      cases hw : wsGet rid with
      | none =>
        exact ⟨[], List.nil_prefix, by simp [parLoop, collectOne, hf, hw]⟩
      | some ws =>
        obtain ⟨pre, hpre, heq⟩ := ih (acc ++ [(rid, aid, failedResult rid ws m)])
        refine ⟨(rid, aid) :: pre, by simpa using hpre, ?_⟩
        simp only [parLoop, collectOne, hf, hw, heq, List.map_cons, parOutcome]
        simp [hf, hw]

/-- Closed form of the drain loop: the kept futures appended in
submission order. -/
theorem drainGo_spec (fres : String → FutureRes) (doneAt : String → Bool)
    (collected : List String) (submit : List (String × String))
    (acc : List Outcome) :
    drainGo fres doneAt collected submit acc
      = acc ++ (submit.filter (drainKeep fres doneAt collected)).map
          (drainVal fres) := by
  induction submit generalizing acc with
  | nil => simp [drainGo]
  | cons p rest ih =>
    obtain ⟨rid, aid⟩ := p
    cases hor : (collected.contains rid || !doneAt rid) with
    | true =>
      have hkeep : drainKeep fres doneAt collected (rid, aid) = false := by
        show (!(collected.contains rid) && doneAt rid &&
          (match fres rid with
           | FutureRes.ok _ => true
           | FutureRes.exc _ => false)) = false
        rcases Bool.or_eq_true_iff.mp hor with hc | hd
        · rw [hc]
          rfl
        · have hdd : doneAt rid = false := by
            cases h2 : doneAt rid
            · rfl
            · rw [h2] at hd
              exact absurd hd (by decide)
          rw [hdd]
          cases collected.contains rid <;> rfl
      simp only [drainGo, hor, ih, List.filter_cons, hkeep]
      simp
    | false =>
      obtain ⟨hc, hd0⟩ := Bool.or_eq_false_iff.mp hor
      have hd : doneAt rid = true := by
        cases h2 : doneAt rid
        · rw [h2] at hd0
          exact absurd hd0 (by decide)
        · rfl
      cases hf : fres rid with
      | ok r =>
        have hkeep : drainKeep fres doneAt collected (rid, aid) = true := by
          show (!(collected.contains rid) && doneAt rid &&
            (match fres rid with
             | FutureRes.ok _ => true
             | FutureRes.exc _ => false)) = true
          rw [hc, hd, hf]
          rfl
        simp only [drainGo, hor, hf, ih, List.filter_cons, hkeep]
        simp [drainVal, hf]
      | exc m =>
        have hkeep : drainKeep fres doneAt collected (rid, aid) = false := by
          show (!(collected.contains rid) && doneAt rid &&
            (match fres rid with
             | FutureRes.ok _ => true
             | FutureRes.exc _ => false)) = false
          rw [hc, hd, hf]
          rfl
        simp only [drainGo, hor, hf, ih, List.filter_cons, hkeep]
        simp

/-- Outcomes carry the run id of the entry they were built from. -/
theorem seqOutcome_fst (beh : String → RunSingleBeh) (e : RunEntry) :
    (seqOutcome beh e).1 = e.run_id := by
  unfold seqOutcome
  cases beh e.run_id <;> rfl

/-- Parallel outcomes carry the run id of the future they came from. -/
theorem parOutcome_fst (wsGet : String → Option String)
    (fres : String → FutureRes) (p : String × String) :
    (parOutcome wsGet fres p).1 = p.1 := by
  unfold parOutcome
  cases fres p.1 <;> rfl

/-- Drained outcomes carry the run id of the future they came from. -/
theorem drainVal_fst (fres : String → FutureRes) (p : String × String) :
    (drainVal fres p).1 = p.1 := rfl

/-- Each per-agent block of the expansion has length `runs_per_agent`. -/
theorem perAgent_length (cfg : BenchmarkConfig) (base : String)
    (a : AgentConfig) :
    ((runNumbers cfg.settings.runs_per_agent).map (entryFor cfg a base)).length
      = cfg.settings.runs_per_agent := by
  simp [runNumbers]

/-- C4 (expansion shape and order): the expansion is the ordered double
loop — agents in configuration order, run numbers `1..R` inside each — so
it has exactly `A×R` entries, the entry at position `i*R + j` belongs to
agent `i` and run number `j+1`, each entry's run id is
`{agent_id}-{n}`, and both execution modes then produce exactly one
outcome per entry. -/
theorem C4_expansion (cfg : BenchmarkConfig) (base : String)
    (beh : String → RunSingleBeh) (po : ParOracle)
    (entries : List RunEntry) (wm : WorkspaceManager)
    (hE : createRunConfigs cfg ⟨base, []⟩ = (entries, wm))
    (hseq : ∀ rid, beh rid ≠ RunSingleBeh.interrupt)
    (hint : po.interruptAfter = none)
    (hperm : po.completion.Perm
      (entries.map (fun e => (e.run_id, e.agent_id)))) :
    entries = cfg.agents.flatMap (fun a =>
        (runNumbers cfg.settings.runs_per_agent).map (entryFor cfg a base))
      ∧ entries.length = cfg.agents.length * cfg.settings.runs_per_agent
      ∧ (∀ i j a, cfg.agents[i]? = some a →
          j < cfg.settings.runs_per_agent →
          entries[i * cfg.settings.runs_per_agent + j]?
            = some (entryFor cfg a base (j + 1)))
      ∧ (∀ a n, (entryFor cfg a base n).run_id = a.id ++ "-" ++ toString n
          ∧ (entryFor cfg a base n).agent_id = a.id
          ∧ (entryFor cfg a base n).run_num = n)
      ∧ (runSequential beh entries []).1.map (fun o => o.1)
          = entries.map RunEntry.run_id
      ∧ ((runParallel wm.get po entries).results.map (fun o => o.1)).Perm
          (entries.map RunEntry.run_id) := by
  have hents : entries = cfg.agents.flatMap (fun a =>
      (runNumbers cfg.settings.runs_per_agent).map (entryFor cfg a base)) := by
    rw [createRunConfigs_spec] at hE
    exact (congrArg Prod.fst hE).symm
  have hcover : ∀ e ∈ entries, wm.get e.run_id
      = some (base ++ "/" ++ e.run_id) := wmGet_covers cfg base entries wm hE
  have hlen : entries.length
      = cfg.agents.length * cfg.settings.runs_per_agent := by
    rw [hents]
    exact flatMap_uniform_length _ _
      (fun a => perAgent_length cfg base a) cfg.agents
  refine ⟨hents, hlen, ?_, ?_, ?_, ?_⟩
  · intro i j a ha hj
    rw [hents,
      flatMap_uniform_getElem cfg.settings.runs_per_agent _
        (fun a => perAgent_length cfg base a) cfg.agents i j hj a ha,
      List.getElem?_map, runNumbers, List.getElem?_range' 1 1 hj]
    simp [Nat.add_comm]
  · intro a n
    exact ⟨rfl, rfl, rfl⟩
  · have hns := runSequential_no_interrupt beh entries []
      (fun e _ => hseq e.run_id)
    rw [hns]
    simp [seqOutcome_fst]
  · have hsome : ∀ p ∈ po.completion, (wm.get p.1).isSome := by
      intro p hp
      have hmem := hperm.mem_iff.mp hp
      simp only [List.mem_map] at hmem
      obtain ⟨e, he, rfl⟩ := hmem
      rw [hcover e he]
      rfl
    simp only [runParallel, hint]
    rw [parLoop_covered wm.get po.fres po.completion [] hsome]
    simp only [List.nil_append, List.map_map]
    have hfst : (fun o => o.1) ∘ parOutcome wm.get po.fres
        = fun p => p.1 := by
      funext p
      exact parOutcome_fst wm.get po.fres p
    rw [hfst]
    have := hperm.map Prod.fst
    simp only [List.map_map] at this
    exact this

/-- C1 (failure isolation): for an expanded experiment, in both modes
every per-run exception is caught at the per-run boundary and converted
to an outcome with `error` set to the exception text and exit code 1,
every other entry still produces its own outcome, and no per-run
exception escapes either scheduling loop. -/
theorem C1_failure_isolation (cfg : BenchmarkConfig) (base : String)
    (beh : String → RunSingleBeh) (po : ParOracle)
    (entries : List RunEntry) (wm : WorkspaceManager)
    (hE : createRunConfigs cfg ⟨base, []⟩ = (entries, wm))
    (hseq : ∀ rid, beh rid ≠ RunSingleBeh.interrupt)
    (hint : po.interruptAfter = none)
    (hperm : po.completion.Perm
      (entries.map (fun e => (e.run_id, e.agent_id)))) :
    (runSequential beh entries []).2 = false
      ∧ (runSequential beh entries []).1.map (fun o => o.1)
          = entries.map RunEntry.run_id
      ∧ (∀ e ∈ entries, ∀ m, beh e.run_id = RunSingleBeh.exc m →
          (e.run_id, e.agent_id,
            failedResult e.run_id e.config.workspace_path m)
            ∈ (runSequential beh entries []).1)
      ∧ (runParallel wm.get po entries).propagated = none
      ∧ (runParallel wm.get po entries).interrupted = false
      ∧ ((runParallel wm.get po entries).results.map (fun o => o.1)).Perm
          (entries.map RunEntry.run_id)
      ∧ (∀ p ∈ po.completion, ∀ m, po.fres p.1 = FutureRes.exc m →
          (p.1, p.2, failedResult p.1 (base ++ "/" ++ p.1) m)
            ∈ (runParallel wm.get po entries).results) := by
  have hcover : ∀ e ∈ entries, wm.get e.run_id
      = some (base ++ "/" ++ e.run_id) := wmGet_covers cfg base entries wm hE
  have hsome : ∀ p ∈ po.completion, (wm.get p.1).isSome := by
    intro p hp
    have hmem := hperm.mem_iff.mp hp
    simp only [List.mem_map] at hmem
    obtain ⟨e, he, rfl⟩ := hmem
    rw [hcover e he]
    rfl
  have hns := runSequential_no_interrupt beh entries []
    (fun e _ => hseq e.run_id)
  have hpl := parLoop_covered wm.get po.fres po.completion [] hsome
  refine ⟨by rw [hns], by rw [hns]; simp [seqOutcome_fst], ?_, ?_, ?_, ?_, ?_⟩
  · intro e he m hm
    rw [hns]
    simp only [List.nil_append, List.mem_map]
    refine ⟨e, he, ?_⟩
    unfold seqOutcome
    rw [hm]
  · simp only [runParallel, hint]
    rw [hpl]
  · simp only [runParallel, hint]
    rw [hpl]
  · simp only [runParallel, hint]
    rw [hpl]
    simp only [List.nil_append, List.map_map]
    have hfst : (fun o => o.1) ∘ parOutcome wm.get po.fres
        = fun p => p.1 := by
      funext p
      exact parOutcome_fst wm.get po.fres p
    rw [hfst]
    have := hperm.map Prod.fst
    simp only [List.map_map] at this
    exact this
  · intro p hp m hm
    simp only [runParallel, hint]
    rw [hpl]
    simp only [List.nil_append, List.mem_map]
    refine ⟨p, hp, ?_⟩
    have hmem := hperm.mem_iff.mp hp
    simp only [List.mem_map] at hmem
    obtain ⟨e, he, rfl⟩ := hmem
    unfold parOutcome
    rw [hm, hcover e he]
    rfl

/-- The sample behaviour never raises `KeyboardInterrupt`. -/
theorem behW_no_interrupt : ∀ rid, behW rid ≠ RunSingleBeh.interrupt := by
  intro rid
  unfold behW
  split <;> intro h <;> exact RunSingleBeh.noConfusion h

/-- Witness for C4 at the two-agent, two-run sample configuration. -/
theorem C4_expansion_witness :
    createRunConfigs cfgW ⟨"/t", []⟩ = (entriesW, wmW)
      ∧ (∀ rid, behW rid ≠ RunSingleBeh.interrupt)
      ∧ poW.interruptAfter = none
      ∧ poW.completion.Perm (entriesW.map (fun e => (e.run_id, e.agent_id)))
      ∧ (entriesW = cfgW.agents.flatMap (fun a =>
            (runNumbers cfgW.settings.runs_per_agent).map
              (entryFor cfgW a "/t"))
          ∧ entriesW.length
              = cfgW.agents.length * cfgW.settings.runs_per_agent
          ∧ (∀ i j a, cfgW.agents[i]? = some a →
              j < cfgW.settings.runs_per_agent →
              entriesW[i * cfgW.settings.runs_per_agent + j]?
                = some (entryFor cfgW a "/t" (j + 1)))
          ∧ (∀ a n, (entryFor cfgW a "/t" n).run_id
                = a.id ++ "-" ++ toString n
              ∧ (entryFor cfgW a "/t" n).agent_id = a.id
              ∧ (entryFor cfgW a "/t" n).run_num = n)
          ∧ (runSequential behW entriesW []).1.map (fun o => o.1)
              = entriesW.map RunEntry.run_id
          ∧ ((runParallel wmW.get poW entriesW).results.map
              (fun o => o.1)).Perm (entriesW.map RunEntry.run_id)) :=
  ⟨rfl, behW_no_interrupt, rfl, List.Perm.refl _,
   C4_expansion cfgW "/t" behW poW entriesW wmW rfl behW_no_interrupt rfl
     (List.Perm.refl _)⟩

/-- Witness for C1 at the sample configuration where run `a-1` raises. -/
theorem C1_failure_isolation_witness :
    createRunConfigs cfgW ⟨"/t", []⟩ = (entriesW, wmW)
      ∧ (∀ rid, behW rid ≠ RunSingleBeh.interrupt)
      ∧ poW.interruptAfter = none
      ∧ poW.completion.Perm (entriesW.map (fun e => (e.run_id, e.agent_id)))
      ∧ ((runSequential behW entriesW []).2 = false
          ∧ (runSequential behW entriesW []).1.map (fun o => o.1)
              = entriesW.map RunEntry.run_id
          ∧ (∀ e ∈ entriesW, ∀ m, behW e.run_id = RunSingleBeh.exc m →
              (e.run_id, e.agent_id,
                failedResult e.run_id e.config.workspace_path m)
                ∈ (runSequential behW entriesW []).1)
          ∧ (runParallel wmW.get poW entriesW).propagated = none
          ∧ (runParallel wmW.get poW entriesW).interrupted = false
          ∧ ((runParallel wmW.get poW entriesW).results.map
              (fun o => o.1)).Perm (entriesW.map RunEntry.run_id)
          ∧ (∀ p ∈ poW.completion, ∀ m, poW.fres p.1 = FutureRes.exc m →
              (p.1, p.2, failedResult p.1 ("/t" ++ "/" ++ p.1) m)
                ∈ (runParallel wmW.get poW entriesW).results)) :=
  ⟨rfl, behW_no_interrupt, rfl, List.Perm.refl _,
   C1_failure_isolation cfgW "/t" behW poW entriesW wmW rfl behW_no_interrupt
     rfl (List.Perm.refl _)⟩

/-- C2 counterexample: a `KeyboardInterrupt` arriving at the first
sequential run makes `run()` terminate (re-raising after its `finally`
block) with zero outcomes and zero written metrics records for an
experiment of one descriptor — the interrupt case does not preserve
one-outcome-per-descriptor. -/
theorem C2_counterexample :
    (createRunConfigs
        (⟨[⟨"a", none, []⟩], ⟨1, false, 30⟩, ⟨"repo", none⟩,
          ⟨none, some "p"⟩⟩ : BenchmarkConfig) ⟨"/t", []⟩).1.length = 1
      ∧ (runExperiment
          (⟨[⟨"a", none, []⟩], ⟨1, false, 30⟩, ⟨"repo", none⟩,
            ⟨none, some "p"⟩⟩ : BenchmarkConfig) "/t"
          (fun _ => RunSingleBeh.interrupt)
          ⟨fun _ => FutureRes.exc "x", [], none, fun _ => false⟩
          moW).results = []
      ∧ (runExperiment
          (⟨[⟨"a", none, []⟩], ⟨1, false, 30⟩, ⟨"repo", none⟩,
            ⟨none, some "p"⟩⟩ : BenchmarkConfig) "/t"
          (fun _ => RunSingleBeh.interrupt)
          ⟨fun _ => FutureRes.exc "x", [], none,
           fun _ => false⟩ moW).metrics.length = 0
      ∧ (runExperiment
          (⟨[⟨"a", none, []⟩], ⟨1, false, 30⟩, ⟨"repo", none⟩,
            ⟨none, some "p"⟩⟩ : BenchmarkConfig) "/t"
          (fun _ => RunSingleBeh.interrupt)
          ⟨fun _ => FutureRes.exc "x", [], none,
           fun _ => false⟩ moW).interrupted = true :=
  ⟨rfl, rfl, rfl, rfl⟩

/-- Drained results: no run id is duplicated and each comes from the
already-collected outcomes or the submitted futures. -/
theorem drain_ids (fres : String → FutureRes) (doneAt : String → Bool)
    (submit : List (String × String)) (acc : List Outcome)
    (hacc : (acc.map (fun o => o.1)).Nodup)
    (hsub : (submit.map Prod.fst).Nodup) :
    ((drainCompleted fres doneAt submit acc).map (fun o => o.1)).Nodup
      ∧ ∀ rid ∈ (drainCompleted fres doneAt submit acc).map (fun o => o.1),
          rid ∈ acc.map (fun o => o.1) ∨ rid ∈ submit.map Prod.fst := by
  unfold drainCompleted
  rw [drainGo_spec, List.map_append]
  have hmm : (List.filter
        (drainKeep fres doneAt (acc.map (fun o => o.1))) submit).map
          (fun p => (drainVal fres p).1)
      = (List.filter
          (drainKeep fres doneAt (acc.map (fun o => o.1))) submit).map
            Prod.fst := by
    apply List.map_congr_left
    intro p _
    exact drainVal_fst fres p
  have hrw : (List.map (drainVal fres)
        (List.filter (drainKeep fres doneAt (acc.map (fun o => o.1)))
          submit)).map (fun o => o.1)
      = (List.filter (drainKeep fres doneAt (acc.map (fun o => o.1)))
          submit).map Prod.fst := by
    rw [List.map_map]
    exact hmm
  constructor
  · rw [hrw]
    apply List.Nodup.append hacc
    · exact ((List.filter_sublist submit).map Prod.fst).nodup hsub
    · intro a ha hb
      simp only [List.mem_map] at hb
      obtain ⟨q, hq, rfl⟩ := hb
      have := List.mem_filter.mp hq
      have hkeep := this.2
      simp only [drainKeep, Bool.and_eq_true, Bool.not_eq_true'] at hkeep
      have hcont : (acc.map (fun o => o.1)).contains q.1 = false :=
        hkeep.1.1
      rw [List.contains_eq_any_beq] at hcont
      have : q.1 ∈ acc.map (fun o => o.1) := ha
      have hany : (acc.map (fun o => o.1)).any (q.1 == ·) = true := by
        apply List.any_eq_true.mpr
        exact ⟨q.1, this, by simp⟩
      rw [hany] at hcont
      cases hcont
  · intro rid hrid
    rw [hrw] at hrid
    rcases List.mem_append.mp hrid with h | h
    · exact Or.inl h
    · refine Or.inr ?_
      simp only [List.mem_map] at h ⊢
      obtain ⟨q, hq, rfl⟩ := h
      exact ⟨q, (List.mem_filter.mp hq).1, rfl⟩

/-- Submitted futures carry exactly the expanded run ids. -/
theorem submit_ids (entries : List RunEntry) :
    (entries.map (fun e => (e.run_id, e.agent_id))).map Prod.fst
      = entries.map RunEntry.run_id := by
  rw [List.map_map]
  rfl

/-- `_run_parallel` never duplicates a run id and never invents one, on
every path (normal completion, propagated `RuntimeError`, interrupt with
drain). -/
theorem runParallel_ids (wsGet : String → Option String) (po : ParOracle)
    (entries : List RunEntry)
    (hndc : (po.completion.map Prod.fst).Nodup)
    (hsubc : ∀ rid ∈ po.completion.map Prod.fst,
        rid ∈ entries.map RunEntry.run_id)
    (hnd : (entries.map RunEntry.run_id).Nodup) :
    ((runParallel wsGet po entries).results.map (fun o => o.1)).Nodup
      ∧ ∀ rid ∈ (runParallel wsGet po entries).results.map (fun o => o.1),
          rid ∈ entries.map RunEntry.run_id := by
  have main : ∀ seen : List (String × String), List.Sublist seen po.completion →
      ((parLoop wsGet po.fres seen []).1.map (fun o => o.1)).Nodup
        ∧ ∀ rid ∈ (parLoop wsGet po.fres seen []).1.map (fun o => o.1),
            rid ∈ po.completion.map Prod.fst := by
    intro seen hs
    obtain ⟨pre, hpre, hloop⟩ := parLoop_prefix wsGet po.fres seen []
    have hids : (parLoop wsGet po.fres seen []).1.map (fun o => o.1)
        = pre.map Prod.fst := by
      rw [hloop]
      simp only [List.nil_append, List.map_map]
      apply List.map_congr_left
      intro p _
      exact parOutcome_fst wsGet po.fres p
    rw [hids]
    have hsub2 : List.Sublist pre po.completion := hpre.sublist.trans hs
    exact ⟨(hsub2.map Prod.fst).nodup hndc,
           fun rid hr => (hsub2.map Prod.fst).subset hr⟩
  cases hi : po.interruptAfter with
  | none =>
    simp only [runParallel, hi]
    cases hl : (parLoop wsGet po.fres po.completion []).2 with
    | none =>
      have hm := main po.completion (List.Sublist.refl _)
      exact ⟨hm.1, fun rid hr => hsubc rid (hm.2 rid hr)⟩
    | some e =>
      have hm := main po.completion (List.Sublist.refl _)
      exact ⟨hm.1, fun rid hr => hsubc rid (hm.2 rid hr)⟩
  | some k =>
    simp only [runParallel, hi]
    cases hl : (parLoop wsGet po.fres (po.completion.take k) []).2 with
    | some e =>
      have hm := main (po.completion.take k) (List.take_sublist k _)
      exact ⟨hm.1, fun rid hr => hsubc rid (hm.2 rid hr)⟩
    | none =>
      have hm := main (po.completion.take k) (List.take_sublist k _)
      have hdi := drain_ids po.fres po.doneAt
        (entries.map (fun e => (e.run_id, e.agent_id)))
        (parLoop wsGet po.fres (po.completion.take k) []).1 hm.1
        (by rw [submit_ids]; exact hnd)
      refine ⟨hdi.1, ?_⟩
      intro rid hr
      rcases hdi.2 rid hr with h | h
      · exact hsubc rid (hm.2 rid h)
      · rw [submit_ids] at h
        exact h

/-- Metrics extraction returns normally whenever the run's metrics file,
if present and parsed, holds a JSON object (the non-raising proviso
established for the degradation paths). -/
theorem collect_run_metrics_isOk (run_id agent_id : String)
    (mfile : Option (Except String JVal)) (git : BMetrics.GitOracle)
    (planFiles : List (Except String (List Char))) (logs : List Char)
    (exit_code : Int) (error : Option String)
    (hobj : ∀ v, mfile = some (Except.ok v) → v.isObj = true) :
    ∃ m, BMetrics.collect_run_metrics run_id agent_id mfile git planFiles
        logs exit_code error = Except.ok m := by
  cases mfile with
  | none => exact ⟨_, rfl⟩
  | some r =>
    cases r with
    | error e => exact ⟨_, rfl⟩
    | ok v =>
      cases v with
      | obj kvs => exact ⟨_, rfl⟩
      | null => exact absurd (hobj _ rfl) (by decide)
      | bool b => exact absurd (hobj _ rfl) (by simp [JVal.isObj])
      | num n => exact absurd (hobj _ rfl) (by simp [JVal.isObj])
      | str s => exact absurd (hobj _ rfl) (by simp [JVal.isObj])
      | arr xs => exact absurd (hobj _ rfl) (by simp [JVal.isObj])

/-- `_collect_results` writes metrics records, in results order, for a
prefix of the collected outcomes, each record keyed by its outcome's run
id; the prefix is the whole list exactly when no `collect_run_metrics`
call raised. -/
theorem collectResults_written (mo : MetricsOracle) :
    ∀ (results : List Outcome) (acc : List (String × BMetrics.RunMetrics)),
      ∃ pre, pre <+: results
        ∧ (collectResults mo results acc).1.map (fun p => p.1)
            = acc.map (fun p => p.1) ++ pre.map (fun o => o.1)
        ∧ ((collectResults mo results acc).2 = none → pre = results) := by
  intro results
  induction results with
  | nil =>
    intro acc
    exact ⟨[], List.prefix_rfl, by simp [collectResults], fun _ => rfl⟩
  | cons o rest ih =>
    intro acc
    cases hm : BMetrics.collect_run_metrics o.1 o.2.1 (mo.mfile o.1)
        (mo.git o.1) (mo.planFiles o.1) o.2.2.logs.toList o.2.2.exit_code
        o.2.2.error with
    | error e =>
      have hcr : collectResults mo (o :: rest) acc = (acc, some e) := by
        simp only [collectResults]
        rw [hm]
      refine ⟨[], ⟨o :: rest, rfl⟩, ?_, ?_⟩
      · rw [hcr]
        simp
      · intro h
        rw [hcr] at h
        simp at h
    | ok m =>
      obtain ⟨pre, hpre, hkeys, hall⟩ := ih (acc ++ [(o.1, m)])
      have hcr : collectResults mo (o :: rest) acc
          = collectResults mo rest (acc ++ [(o.1, m)]) := by
        simp only [collectResults]
        rw [hm]
      refine ⟨o :: pre, ?_, ?_, ?_⟩
      · obtain ⟨t, ht⟩ := hpre
        exact ⟨t, by rw [List.cons_append, ht]⟩
      · rw [hcr, hkeys]
        simp
      · intro h
        rw [hcr] at h
        rw [hall h]

/-- Under the metrics-file proviso, no `collect_run_metrics` call raises,
so the `_collect_results` loop runs to the end. -/
theorem collectResults_total (mo : MetricsOracle)
    (hmo : ∀ rid v, mo.mfile rid = some (Except.ok v) → v.isObj = true) :
    ∀ (results : List Outcome) (acc : List (String × BMetrics.RunMetrics)),
      (collectResults mo results acc).2 = none := by
  intro results
  induction results with
  | nil => intro acc; rfl
  | cons o rest ih =>
    intro acc
    obtain ⟨m, hm⟩ := collect_run_metrics_isOk o.1 o.2.1 (mo.mfile o.1)
      (mo.git o.1) (mo.planFiles o.1) o.2.2.logs.toList o.2.2.exit_code
      o.2.2.error (hmo o.1)
    have hcr : collectResults mo (o :: rest) acc
        = collectResults mo rest (acc ++ [(o.1, m)]) := by
      simp only [collectResults]
      rw [hm]
    rw [hcr]
    exact ih _

/-- C2 amended (completion accounting): `_collect_results` always writes
metrics records, in results order, for a prefix of the collected
outcomes — for all of them exactly when no `collect_run_metrics` call
raised; when `run()` completes without an operator interrupt and every
run's metrics file, if present and parseable, is a JSON object, the
results list holds exactly one outcome per expanded descriptor, nothing
raises during collection, and exactly one metrics record is written per
descriptor; on every path no run id is duplicated and no outcome belongs
to a run that was not expanded.  An interrupt arriving mid-flight may
leave descriptors without an outcome, and a raising
`collect_run_metrics` (a non-object metrics file) aborts the remaining
writes, so neither case keeps the exactly-K guarantee (see the
counterexample). -/
theorem C2_completion (cfg : BenchmarkConfig) (base : String)
    (beh : String → RunSingleBeh) (po : ParOracle) (mo : MetricsOracle)
    (entries : List RunEntry) (wm : WorkspaceManager)
    (hE : createRunConfigs cfg ⟨base, []⟩ = (entries, wm))
    (hnd : (entries.map RunEntry.run_id).Nodup)
    (hperm : cfg.settings.parallel = true →
      po.completion.Perm (entries.map (fun e => (e.run_id, e.agent_id)))) :
    (∃ pre, pre <+: (runExperiment cfg base beh po mo).results
        ∧ (runExperiment cfg base beh po mo).metrics.map (fun p => p.1)
            = pre.map (fun o => o.1))
      ∧ ((runExperiment cfg base beh po mo).metricsRaised = none →
          (runExperiment cfg base beh po mo).metrics.map (fun p => p.1)
            = (runExperiment cfg base beh po mo).results.map (fun o => o.1))
      ∧ ((((cfg.settings.parallel = false →
              ∀ rid, beh rid ≠ RunSingleBeh.interrupt)
            ∧ (cfg.settings.parallel = true → po.interruptAfter = none))
           ∧ (∀ rid v, mo.mfile rid = some (Except.ok v) → v.isObj = true)) →
          ((runExperiment cfg base beh po mo).results.map (fun o => o.1)).Perm
              (entries.map RunEntry.run_id)
            ∧ (runExperiment cfg base beh po mo).metricsRaised = none
            ∧ (runExperiment cfg base beh po mo).metrics.length
                = entries.length)
      ∧ ((runExperiment cfg base beh po mo).results.map (fun o => o.1)).Nodup
      ∧ (∀ rid ∈ (runExperiment cfg base beh po mo).results.map
            (fun o => o.1),
          rid ∈ entries.map RunEntry.run_id) := by
  cases hpar : cfg.settings.parallel with
  | false =>
    have hre : runExperiment cfg base beh po mo
        = { results := (runSequential beh entries []).1,
            metrics :=
              (collectResults mo (runSequential beh entries []).1 []).1,
            metricsRaised :=
              (collectResults mo (runSequential beh entries []).1 []).2,
            interrupted := (runSequential beh entries []).2,
            propagated := none } := by
      simp only [runExperiment]
      rw [hE, hpar]
      simp
    have hresf : (runExperiment cfg base beh po mo).results
        = (runSequential beh entries []).1 := by rw [hre]
    have hmetf : (runExperiment cfg base beh po mo).metrics
        = (collectResults mo (runSequential beh entries []).1 []).1 := by
      rw [hre]
    have hraif : (runExperiment cfg base beh po mo).metricsRaised
        = (collectResults mo (runSequential beh entries []).1 []).2 := by
      rw [hre]
    obtain ⟨mpre, hmpre, hmkeys, hmall⟩ :=
      collectResults_written mo (runSequential beh entries []).1 []
    have hmkeys2 :
        (collectResults mo (runSequential beh entries []).1 []).1.map
            (fun p => p.1)
          = mpre.map (fun o => o.1) := by
      rw [hmkeys]
      simp
    obtain ⟨pre, hpre, hseq1⟩ := runSequential_prefix beh entries []
    have hids : (runSequential beh entries []).1.map (fun o => o.1)
        = pre.map RunEntry.run_id := by
      rw [hseq1]
      simp only [List.nil_append, List.map_map]
      apply List.map_congr_left
      intro e _
      exact seqOutcome_fst beh e
    refine ⟨⟨mpre, ?_, ?_⟩, ?_, ?_, ?_, ?_⟩
    · rw [hresf]
      exact hmpre
    · rw [hmetf]
      exact hmkeys2
    · intro h
      rw [hraif] at h
      rw [hmetf, hresf, hmkeys2, hmall h]
    · rintro ⟨⟨hs, -⟩, hmo⟩
      have hni := runSequential_no_interrupt beh entries []
        (fun e _ => hs rfl e.run_id)
      have hids2 : (runSequential beh entries []).1.map (fun o => o.1)
          = entries.map RunEntry.run_id := by
        rw [hni]
        simp only [List.nil_append, List.map_map]
        apply List.map_congr_left
        intro e _
        exact seqOutcome_fst beh e
      have hnone : (collectResults mo (runSequential beh entries []).1 []).2
          = none := collectResults_total mo hmo _ _
      refine ⟨?_, ?_, ?_⟩
      · rw [hresf, hids2]
      · rw [hraif]
        exact hnone
      · rw [hmetf]
        have h1 :
            ((collectResults mo (runSequential beh entries []).1 []).1.map
                (fun p => p.1)).length
              = (entries.map RunEntry.run_id).length := by
          rw [hmkeys2, hmall hnone, hids2]
        rw [List.length_map, List.length_map] at h1
        exact h1
    · rw [hresf, hids]
      exact ((hpre.sublist).map RunEntry.run_id).nodup hnd
    · intro rid hr
      rw [hresf, hids] at hr
      exact ((hpre.sublist).map RunEntry.run_id).subset hr
  | true =>
    have hre : runExperiment cfg base beh po mo
        = { results := (runParallel wm.get po entries).results,
            metrics :=
              (collectResults mo (runParallel wm.get po entries).results []).1,
            metricsRaised :=
              (collectResults mo (runParallel wm.get po entries).results []).2,
            interrupted := (runParallel wm.get po entries).interrupted,
            propagated := (runParallel wm.get po entries).propagated } := by
      simp only [runExperiment]
      rw [hE, hpar]
      simp
    have hresf : (runExperiment cfg base beh po mo).results
        = (runParallel wm.get po entries).results := by rw [hre]
    have hmetf : (runExperiment cfg base beh po mo).metrics
        = (collectResults mo (runParallel wm.get po entries).results []).1 := by
      rw [hre]
    have hraif : (runExperiment cfg base beh po mo).metricsRaised
        = (collectResults mo (runParallel wm.get po entries).results []).2 := by
      rw [hre]
    obtain ⟨mpre, hmpre, hmkeys, hmall⟩ :=
      collectResults_written mo (runParallel wm.get po entries).results []
    have hmkeys2 :
        (collectResults mo (runParallel wm.get po entries).results []).1.map
            (fun p => p.1)
          = mpre.map (fun o => o.1) := by
      rw [hmkeys]
      simp
    have hpermT := hperm hpar
    have hcids : (po.completion.map Prod.fst).Perm
        (entries.map RunEntry.run_id) := by
      have := hpermT.map Prod.fst
      rwa [submit_ids] at this
    have hndc : (po.completion.map Prod.fst).Nodup :=
      hcids.nodup_iff.mpr hnd
    have hsubc : ∀ rid ∈ po.completion.map Prod.fst,
        rid ∈ entries.map RunEntry.run_id :=
      fun rid hr => hcids.mem_iff.mp hr
    have hids := runParallel_ids wm.get po entries hndc hsubc hnd
    refine ⟨⟨mpre, ?_, ?_⟩, ?_, ?_, ?_, ?_⟩
    · rw [hresf]
      exact hmpre
    · rw [hmetf]
      exact hmkeys2
    · intro h
      rw [hraif] at h
      rw [hmetf, hresf, hmkeys2, hmall h]
    · rintro ⟨⟨-, hp⟩, hmo⟩
      have hi := hp rfl
      have hcover : ∀ e ∈ entries, wm.get e.run_id
          = some (base ++ "/" ++ e.run_id) :=
        wmGet_covers cfg base entries wm hE
      have hsome : ∀ p ∈ po.completion, (wm.get p.1).isSome := by
        intro p hp2
        have hmem := hpermT.mem_iff.mp hp2
        simp only [List.mem_map] at hmem
        obtain ⟨e, he, rfl⟩ := hmem
        rw [hcover e he]
        rfl
      have hresids :
          (runParallel wm.get po entries).results.map (fun o => o.1)
            = po.completion.map Prod.fst := by
        simp only [runParallel, hi]
        rw [parLoop_covered wm.get po.fres po.completion [] hsome]
        simp only [List.nil_append, List.map_map]
        apply List.map_congr_left
        intro p _
        exact parOutcome_fst wm.get po.fres p
      have hnone :
          (collectResults mo (runParallel wm.get po entries).results []).2
            = none := collectResults_total mo hmo _ _
      refine ⟨?_, ?_, ?_⟩
      · rw [hresf, hresids]
        exact hcids
      · rw [hraif]
        exact hnone
      · rw [hmetf]
        have h1 :
            ((collectResults mo
                  (runParallel wm.get po entries).results []).1.map
                (fun p => p.1)).length
              = (entries.map RunEntry.run_id).length := by
          rw [hmkeys2, hmall hnone, hresids, hcids.length_eq]
        rw [List.length_map, List.length_map] at h1
        exact h1
    · rw [hresf]
      exact hids.1
    · intro rid hr
      rw [hresf] at hr
      exact hids.2 rid hr

/-- Witness for C2 at the sample configuration, with an interrupt-free
parallel oracle and metrics-file-less workspaces. -/
theorem C2_completion_witness :
    createRunConfigs cfgW ⟨"/t", []⟩ = (entriesW, wmW)
      ∧ (entriesW.map RunEntry.run_id).Nodup
      ∧ (cfgW.settings.parallel = true →
          poW.completion.Perm (entriesW.map (fun e => (e.run_id, e.agent_id))))
      ∧ ((∃ pre, pre <+: (runExperiment cfgW "/t" behW poW moW).results
            ∧ (runExperiment cfgW "/t" behW poW moW).metrics.map
                (fun p => p.1)
              = pre.map (fun o => o.1))
          ∧ ((runExperiment cfgW "/t" behW poW moW).metricsRaised = none →
              (runExperiment cfgW "/t" behW poW moW).metrics.map
                  (fun p => p.1)
                = (runExperiment cfgW "/t" behW poW moW).results.map
                    (fun o => o.1))
          ∧ ((((cfgW.settings.parallel = false →
                  ∀ rid, behW rid ≠ RunSingleBeh.interrupt)
                ∧ (cfgW.settings.parallel = true →
                    poW.interruptAfter = none))
               ∧ (∀ rid v, moW.mfile rid = some (Except.ok v) →
                    v.isObj = true)) →
              ((runExperiment cfgW "/t" behW poW moW).results.map
                  (fun o => o.1)).Perm (entriesW.map RunEntry.run_id)
                ∧ (runExperiment cfgW "/t" behW poW moW).metricsRaised = none
                ∧ (runExperiment cfgW "/t" behW poW moW).metrics.length
                    = entriesW.length)
          ∧ ((runExperiment cfgW "/t" behW poW moW).results.map
              (fun o => o.1)).Nodup
          ∧ (∀ rid ∈ (runExperiment cfgW "/t" behW poW moW).results.map
                (fun o => o.1),
              rid ∈ entriesW.map RunEntry.run_id)) :=
  ⟨rfl, by decide, fun _ => List.Perm.refl _,
   C2_completion cfgW "/t" behW poW moW entriesW wmW rfl (by decide)
     (fun _ => List.Perm.refl _)⟩

/-! ## Theorems: teardown (C7) -/

/-- A path is a prefix of itself. -/
theorem underPath_self (p : String) : underPath p p = true :=
  List.isPrefixOf_iff_prefix.mpr List.prefix_rfl

/-- A strictly longer path never reaches up to its root. -/
theorem underPath_longer_false (td x : String) :
    underPath (td ++ "/" ++ x) td = false := by
  cases h : underPath (td ++ "/" ++ x) td
  · rfl
  · exfalso
    have hpre := List.isPrefixOf_iff_prefix.mp h
    have hlen : (td ++ "/" ++ x).length ≤ td.length := hpre.length_le
    have h1 : ("/" : String).length = 1 := rfl
    simp only [String.length_append, h1] at hlen
    omega

/-- The workspace-cleanup fold never adds a path to the filesystem. -/
theorem cleanupFold_subset (fails : String → Bool) :
    ∀ (l : List (String × String)) (fs : List String) (x : String),
      x ∈ l.foldl (fun acc p =>
        if acc.contains p.2 then rmtreeIgnore fails acc p.2 else acc) fs →
      x ∈ fs := by
  intro l
  induction l with
  | nil => exact fun fs x hx => hx
  | cons p rest ih =>
    intro fs x hx
    simp only [List.foldl_cons] at hx
    have hstep := ih _ x hx
    by_cases hc : fs.contains p.2 = true
    · rw [if_pos hc] at hstep
      unfold rmtreeIgnore at hstep
      by_cases hf : fails p.2 = true
      · rwa [if_pos hf] at hstep
      · rw [if_neg hf] at hstep
        exact (List.mem_filter.mp hstep).1
    · rwa [if_neg hc] at hstep

/-- With removals succeeding, the fold removes every recorded workspace
that existed (and never re-creates one that did not). -/
theorem cleanupFold_removes (fails : String → Bool)
    (hfail : ∀ p, fails p = false) :
    ∀ (l : List (String × String)) (fs : List String),
      ∀ pr ∈ l, pr.2 ∉ l.foldl (fun acc p =>
        if acc.contains p.2 then rmtreeIgnore fails acc p.2 else acc) fs := by
  intro l
  induction l with
  | nil =>
    intro fs pr hpr
    simp at hpr
  | cons q rest ih =>
    intro fs pr hpr
    simp only [List.foldl_cons]
    rcases List.mem_cons.mp hpr with rfl | hpr2
    · intro hmem
      have hin := cleanupFold_subset fails rest _ pr.2 hmem
      by_cases hc : fs.contains pr.2 = true
      · rw [if_pos hc] at hin
        unfold rmtreeIgnore at hin
        rw [hfail pr.2] at hin
        simp only [Bool.false_eq_true, if_false] at hin
        have := (List.mem_filter.mp hin).2
        rw [underPath_self] at this
        exact absurd this (by decide)
      · rw [if_neg hc] at hin
        exact hc (List.elem_iff.mpr hin)
    · exact ih _ pr hpr2

/-- The fold keeps any path that no recorded workspace reaches. -/
theorem cleanupFold_keeps (fails : String → Bool) (td : String) :
    ∀ (l : List (String × String)) (fs : List String),
      (∀ pr ∈ l, underPath pr.2 td = false) → td ∈ fs →
      td ∈ l.foldl (fun acc p =>
        if acc.contains p.2 then rmtreeIgnore fails acc p.2 else acc) fs := by
  intro l
  induction l with
  | nil => exact fun fs _ h => h
  | cons q rest ih =>
    intro fs hl htd
    simp only [List.foldl_cons]
    apply ih
    · intro pr hpr
      exact hl pr (List.mem_cons_of_mem _ hpr)
    · by_cases hc : fs.contains q.2 = true
      · rw [if_pos hc]
        unfold rmtreeIgnore
        by_cases hf : fails q.2 = true
        · rw [if_pos hf]
          exact htd
        · rw [if_neg hf]
          refine List.mem_filter.mpr ⟨htd, ?_⟩
          rw [hl q (by simp)]
          rfl
      · rw [if_neg hc]
        exact htd

/-- Every workspace the expansion records lives under the temp root. -/
theorem createRun_ws_shape (cfg : BenchmarkConfig) (td : String)
    (entries : List RunEntry) (wmE : WorkspaceManager)
    (hE : createRunConfigs cfg ⟨td, []⟩ = (entries, wmE)) :
    ∀ pr ∈ wmE.workspaces, pr.2 = td ++ "/" ++ pr.1 := by
  have hw : wmE = ⟨td, (cfg.agents.flatMap (fun a =>
      (runNumbers cfg.settings.runs_per_agent).map
        (pairFor a td))).reverse⟩ := by
    rw [createRunConfigs_spec] at hE
    exact (congrArg Prod.snd hE).symm
  intro pr hpr
  rw [hw] at hpr
  simp only [List.mem_reverse, List.mem_flatMap, List.mem_map] at hpr
  obtain ⟨a, -, n, -, rfl⟩ := hpr
  rfl

/-- `ContainerManager.cleanup` always empties the handle map. -/
theorem managerCleanup_empty (f : Nat → Bool) :
    ∀ l : List (String × Nat), (managerCleanup f l).1 = [] := by
  intro l
  induction l with
  | nil => rfl
  | cons p rest ih => simpa [managerCleanup] using ih

/-- C7 (workspace-cleanup totality): for every workspace manager,
`cleanup()` clears its map and — when removals succeed — removes every
workspace it created; and for the orchestrator's teardown over the
expansion-produced manager, the container map is emptied and nothing
under the experiment's temporary root survives.  Every primitive on these
paths is the non-raising variant (`rmtree(..., ignore_errors=True)`,
guarded `remove`), so the model's cleanup functions are total: cleanup
never throws. -/
theorem C7_cleanup (rmFails : String → Bool) (cFails : Nat → Bool)
    (wm : WorkspaceManager) (fs : List String)
    (hfail : ∀ p, rmFails p = false) :
    ((wm.cleanup rmFails fs).1.workspaces = []
      ∧ ∀ pr ∈ wm.workspaces, pr.2 ∉ (wm.cleanup rmFails fs).2)
    ∧ (∀ (cfg : BenchmarkConfig) (td : String) (entries : List RunEntry)
        (wmE : WorkspaceManager) (cm : List (String × Nat)),
        createRunConfigs cfg ⟨td, []⟩ = (entries, wmE) →
        td ∈ fs →
        (runnerCleanup rmFails cFails ⟨cm, some wmE, some td⟩ fs).1.containers
            = []
          ∧ ∀ q ∈ (runnerCleanup rmFails cFails ⟨cm, some wmE, some td⟩ fs).2.1,
              underPath td q = false) := by
  constructor
  · exact ⟨rfl, cleanupFold_removes rmFails hfail wm.workspaces fs⟩
  · intro cfg td entries wmE cm hE htd
    constructor
    · show (managerCleanup cFails cm).1 = []
      exact managerCleanup_empty cFails cm
    · have hshape := createRun_ws_shape cfg td entries wmE hE
      have hunder : ∀ pr ∈ wmE.workspaces, underPath pr.2 td = false := by
        intro pr hpr
        rw [hshape pr hpr]
        exact underPath_longer_false td pr.1
      have hkeep : td ∈ (wmE.cleanup rmFails fs).2 :=
        cleanupFold_keeps rmFails td wmE.workspaces fs hunder htd
      intro q hq
      have hcont : (wmE.cleanup rmFails fs).2.contains td = true :=
        List.elem_iff.mpr hkeep
      have hfs3 : (runnerCleanup rmFails cFails ⟨cm, some wmE, some td⟩ fs).2.1
          = rmtreeIgnore rmFails (wmE.cleanup rmFails fs).2 td := by
        show (if (wmE.cleanup rmFails fs).2.contains td then
                rmtreeIgnore rmFails (wmE.cleanup rmFails fs).2 td
              else (wmE.cleanup rmFails fs).2)
            = rmtreeIgnore rmFails (wmE.cleanup rmFails fs).2 td
        rw [if_pos hcont]
      rw [hfs3] at hq
      unfold rmtreeIgnore at hq
      rw [hfail td] at hq
      simp only [Bool.false_eq_true, if_false] at hq
      have hnq := (List.mem_filter.mp hq).2
      cases hres : underPath td q
      · rfl
      · rw [hres] at hnq
        exact absurd hnq (by decide)

/-- Witness for C7 on a concrete manager and filesystem with all removals
succeeding. -/
theorem C7_cleanup_witness :
    (∀ p, (fun _ => false : String → Bool) p = false)
      ∧ ((((⟨"/b", [("r1", "/b/r1")]⟩ : WorkspaceManager).cleanup
              (fun _ => false) ["/t", "/t/a-1", "/b/r1"]).1.workspaces = []
            ∧ ∀ pr ∈ (⟨"/b", [("r1", "/b/r1")]⟩ : WorkspaceManager).workspaces,
                pr.2 ∉ ((⟨"/b", [("r1", "/b/r1")]⟩ : WorkspaceManager).cleanup
                  (fun _ => false) ["/t", "/t/a-1", "/b/r1"]).2)
          ∧ (∀ (cfg : BenchmarkConfig) (td : String)
              (entries : List RunEntry) (wmE : WorkspaceManager)
              (cm : List (String × Nat)),
              createRunConfigs cfg ⟨td, []⟩ = (entries, wmE) →
              td ∈ ["/t", "/t/a-1", "/b/r1"] →
              (runnerCleanup (fun _ => false) (fun _ => true)
                  ⟨cm, some wmE, some td⟩
                  ["/t", "/t/a-1", "/b/r1"]).1.containers = []
                ∧ ∀ q ∈ (runnerCleanup (fun _ => false) (fun _ => true)
                    ⟨cm, some wmE, some td⟩
                    ["/t", "/t/a-1", "/b/r1"]).2.1,
                    underPath td q = false)) :=
  ⟨fun _ => rfl,
   C7_cleanup (fun _ => false) (fun _ => true) ⟨"/b", [("r1", "/b/r1")]⟩
     ["/t", "/t/a-1", "/b/r1"] (fun _ => rfl)⟩

/-! ## Theorems: metrics extraction (C8, C9) -/

/-- With no token marker in the logs, extraction yields the empty map. -/
theorem extract_token_usage_empty (logs : List Char)
    (h : BMetrics.hasTokenMarker logs = false) :
    BMetrics.extract_token_usage logs = [] := by
  have ha : BMetrics.tokenSearch "input".toList logs = none := by
    cases hs : BMetrics.tokenSearch "input".toList logs with
    | none => rfl
    | some n =>
      unfold BMetrics.hasTokenMarker at h
      rw [hs] at h
      simp at h
  have hb : BMetrics.tokenSearch "output".toList logs = none := by
    cases hs : BMetrics.tokenSearch "output".toList logs with
    | none => rfl
    | some n =>
      unfold BMetrics.hasTokenMarker at h
      rw [hs] at h
      simp at h
  have hc : BMetrics.tokenSearch "total".toList logs = none := by
    cases hs : BMetrics.tokenSearch "total".toList logs with
    | none => rfl
    | some n =>
      unfold BMetrics.hasTokenMarker at h
      rw [hs] at h
      simp at h
  unfold BMetrics.extract_token_usage
  simp only [List.foldl_cons, List.foldl_nil, ha, hb, hc]

/-- C8 counterexample: a backend metrics file whose content parses to the
JSON value `5` (valid JSON, but not an object) makes
`container_metrics.get("duration_seconds", 0)` raise `AttributeError`,
which escapes `collect_run_metrics`. -/
theorem C8_counterexample :
    exceptIsErr (BMetrics.collect_run_metrics "r1" "agent"
        (some (.ok (.num 5))) ⟨.ok 1, .ok (0, [])⟩ [] [] 0 none) = true := rfl

/-- C8 amended (metrics degradation): provided the backend metrics file,
when present and parseable, holds a JSON object, `collect_run_metrics`
returns a well-formed record for every input — a missing or unparseable
metrics file degrades the duration to 0, an empty plan-file list yields
zeroed plan metrics, and logs without token markers yield an empty
token-usage map; a parseable non-object metrics file instead raises (see
the counterexample). -/
theorem C8_degradation (run_id agent_id : String)
    (mfile : Option (Except String JVal)) (git : BMetrics.GitOracle)
    (planFiles : List (Except String (List Char))) (logs : List Char)
    (exit_code : Int) (error : Option String)
    (hobj : ∀ v, mfile = some (.ok v) → v.isObj = true) :
    ∃ m, BMetrics.collect_run_metrics run_id agent_id mfile git planFiles
          logs exit_code error = .ok m
      ∧ ((mfile = none ∨ ∃ e, mfile = some (.error e)) →
          m.duration_seconds = .num 0)
      ∧ (planFiles = [] → m.plan = {})
      ∧ (BMetrics.hasTokenMarker logs = false → m.token_usage = [])
      ∧ m.run_id = run_id ∧ m.agent_id = agent_id
      ∧ m.exit_code = exit_code ∧ m.error = error := by
  cases mfile with
  | none =>
    refine ⟨_, rfl, fun _ => rfl, ?_, ?_, rfl, rfl, rfl, rfl⟩
    · intro h
      subst h
      rfl
    · intro h
      exact extract_token_usage_empty logs h
  | some r =>
    cases r with
    | error e =>
      refine ⟨_, rfl, fun _ => rfl, ?_, ?_, rfl, rfl, rfl, rfl⟩
      · intro h
        subst h
        rfl
      · intro h
        exact extract_token_usage_empty logs h
    | ok v =>
      have hv := hobj v rfl
      cases v with
      | obj kvs =>
        refine ⟨_, rfl, ?_, ?_, ?_, rfl, rfl, rfl, rfl⟩
        · rintro (h | ⟨e, h⟩)
          · exact Option.noConfusion h
          · injection h with h2
            exact Except.noConfusion h2
        · intro h
          subst h
          rfl
        · intro h
          exact extract_token_usage_empty logs h
      | null => exact absurd hv (by simp [JVal.isObj])
      | bool b => exact absurd hv (by simp [JVal.isObj])
      | num n => exact absurd hv (by simp [JVal.isObj])
      | str s => exact absurd hv (by simp [JVal.isObj])
      | arr xs => exact absurd hv (by simp [JVal.isObj])

/-- Witness for C8 with a missing metrics file, an empty plan list and
marker-free logs. -/
theorem C8_degradation_witness :
    (∀ v, (none : Option (Except String JVal)) = some (.ok v) →
       v.isObj = true)
      ∧ ∃ m, BMetrics.collect_run_metrics "r1" "agent" none
            ⟨.ok 1, .ok (0, [])⟩ [] ("hello".toList) 0 none = .ok m
          ∧ (((none : Option (Except String JVal)) = none
                ∨ ∃ e, (none : Option (Except String JVal))
                    = some (.error e)) →
              m.duration_seconds = .num 0)
          ∧ (([] : List (Except String (List Char))) = [] → m.plan = {})
          ∧ (BMetrics.hasTokenMarker ("hello".toList) = false →
              m.token_usage = [])
          ∧ m.run_id = "r1" ∧ m.agent_id = "agent"
          ∧ m.exit_code = 0 ∧ m.error = none :=
  ⟨fun v h => Option.noConfusion h,
   C8_degradation "r1" "agent" none ⟨.ok 1, .ok (0, [])⟩ [] ("hello".toList)
     0 none (fun v h => Option.noConfusion h)⟩

namespace Act

/-- Adding a zero contribution changes nothing. -/
theorem addTot_zero (t : Totals) : addTot t totals0 = t := by
  cases t
  simp [addTot, totals0]

/-- A well-formed optional field coerces to its numeric value. -/
theorem jAsInt_field (o : Option JVal) (h : optNumOk o = true) :
    jAsInt (o.getD (.num 0)) = .ok (optNum o) := by
  cases o with
  | none => rfl
  | some v =>
    cases v with
    | num n => rfl
    | null => exact absurd h (by simp [optNumOk])
    | bool b => exact absurd h (by simp [optNumOk])
    | str s => exact absurd h (by simp [optNumOk])
    | arr xs => exact absurd h (by simp [optNumOk])
    | obj kvs => exact absurd h (by simp [optNumOk])

/-- `tokens.get(k, 0)` on an object with a well-formed field. -/
theorem pyGetInt_obj (tkvs : List (String × JVal)) (k : String)
    (h : optNumOk (jLookup tkvs k) = true) :
    pyGetInt (.obj tkvs) k = .ok (optNum (jLookup tkvs k)) := by
  unfold pyGetInt
  simp only [pyDictGet]
  rw [jAsInt_field _ h]

/-- `(cache or {}).get` behaves like `cache.get` for object caches
(an empty object is falsy, but looking up in `{}` gives the same
defaults). -/
theorem pyOrElse_obj_get (ckvs : List (String × JVal)) (k : String) :
    pyGetInt (pyOrElse (.obj ckvs) (.obj [])) k
      = pyGetInt (.obj ckvs) k := by
  unfold pyOrElse
  cases ckvs with
  | nil => rfl
  | cons p rest => rfl


/-- `dict.get` on an object value. -/
theorem pyDictGet_obj (kvs : List (String × JVal)) (k : String) (d : JVal) :
    pyDictGet (.obj kvs) k d = .ok ((jLookup kvs k).getD d) := rfl

/-- `(info or {}).get` on an object `info` (empty objects are falsy but
look up identically). -/
theorem pyDictGet_orElse (ikvs : List (String × JVal)) (k : String) (d : JVal) :
    pyDictGet (pyOrElse (.obj ikvs) (.obj [])) k d
      = .ok ((jLookup ikvs k).getD d) := by
  unfold pyOrElse
  cases ikvs with
  | nil => rfl
  | cons p rest => rfl

/-- A non-empty object is truthy. -/
theorem jTruthy_obj_cons (p : String × JVal) (rest : List (String × JVal)) :
    jTruthy (.obj (p :: rest)) = true := rfl

/-- One loop iteration on a message whose tokens entry is a well-formed
object adds exactly the spec-side contribution. -/
theorem addMsg_tokens_obj (t : Totals) (kvs ikvs tkvs : List (String × JVal))
    (hinfo : jLookup kvs "info" = some (.obj ikvs))
    (htok : jLookup ikvs "tokens" = some (.obj tkvs))
    (hwf : tokensOk (some (.obj tkvs)) = true) :
    addMsg t (.obj kvs) = .ok (addTot t (specMsgTokens (.obj kvs))) := by
  simp only [tokensOk, Bool.and_eq_true] at hwf
  obtain ⟨⟨⟨⟨h1, h2⟩, h3⟩, h4⟩, h5⟩ := hwf
  cases tkvs with
  | nil =>
    have hspec0 : specMsgTokens (.obj kvs) = totals0 := by
      simp [specMsgTokens, hinfo, htok, jLookup, optNum, totals0]
    rw [hspec0, addTot_zero]
    unfold addMsg
    simp only [pyDictGet_obj, hinfo, Option.getD_some, pyDictGet_orElse, htok]
    rfl
  | cons p rest =>
    have hspec : specMsgTokens (.obj kvs)
        = { total := optNum (jLookup (p :: rest) "total"),
            input := optNum (jLookup (p :: rest) "input"),
            output := optNum (jLookup (p :: rest) "output"),
            reasoning := optNum (jLookup (p :: rest) "reasoning"),
            cache_read := match jLookup (p :: rest) "cache" with
              | some (.obj ckvs) => optNum (jLookup ckvs "read")
              | _ => 0,
            cache_write := match jLookup (p :: rest) "cache" with
              | some (.obj ckvs) => optNum (jLookup ckvs "write")
              | _ => 0 } := by
      simp only [specMsgTokens, hinfo, htok]
    rw [hspec]
    unfold addMsg
    simp only [pyDictGet_obj, hinfo, Option.getD_some, pyDictGet_orElse, htok,
      jTruthy_obj_cons, if_true, pyGetInt_obj _ _ h1, pyGetInt_obj _ _ h2,
      pyGetInt_obj _ _ h3, pyGetInt_obj _ _ h4]
    cases hcache : jLookup (p :: rest) "cache" with
    | none =>
      simp only [hcache, Option.getD_none]
      rfl
    | some cv =>
      cases cv with
      | null =>
        simp only [hcache, Option.getD_some]
        rfl
      | obj ckvs =>
        rw [hcache] at h5
        simp only [cacheOk, Bool.and_eq_true] at h5
        obtain ⟨hr, hw⟩ := h5
        simp only [hcache, Option.getD_some, pyOrElse_obj_get,
          pyGetInt_obj _ _ hr, pyGetInt_obj _ _ hw]
        rfl
      | bool b =>
        rw [hcache] at h5
        simp [cacheOk] at h5
      | num n =>
        rw [hcache] at h5
        simp [cacheOk] at h5
      | str s =>
        rw [hcache] at h5
        simp [cacheOk] at h5
      | arr xs =>
        rw [hcache] at h5
        simp [cacheOk] at h5


/-- One loop iteration on any well-formed message adds exactly the
spec-side contribution (zero when the message carries no token data). -/
theorem addMsg_wf (t : Totals) (m : JVal) (h : msgWF m = true) :
    addMsg t m = .ok (addTot t (specMsgTokens m)) := by
  cases m with
  | obj kvs =>
    cases hinfo : jLookup kvs "info" with
    | none =>
      have hz : specMsgTokens (.obj kvs) = totals0 := by
        simp only [specMsgTokens, hinfo]
      rw [hz, addTot_zero]
      unfold addMsg
      simp only [pyDictGet_obj, hinfo, Option.getD_none]
      rfl
    | some v =>
      cases v with
      | null =>
        have hz : specMsgTokens (.obj kvs) = totals0 := by
          simp only [specMsgTokens, hinfo]
        rw [hz, addTot_zero]
        unfold addMsg
        simp only [pyDictGet_obj, hinfo, Option.getD_some]
        rfl
      | obj ikvs =>
        simp only [msgWF] at h
        rw [hinfo] at h
        have h2 : tokensOk (jLookup ikvs "tokens") = true := h
        cases htok : jLookup ikvs "tokens" with
        | none =>
          have hz : specMsgTokens (.obj kvs) = totals0 := by
            simp only [specMsgTokens, hinfo, htok]
          rw [hz, addTot_zero]
          unfold addMsg
          simp only [pyDictGet_obj, hinfo, Option.getD_some, pyDictGet_orElse,
            htok, Option.getD_none]
          rfl
        | some tv =>
          rw [htok] at h2
          cases tv with
          | null =>
            have hz : specMsgTokens (.obj kvs) = totals0 := by
              simp only [specMsgTokens, hinfo, htok]
            rw [hz, addTot_zero]
            unfold addMsg
            simp only [pyDictGet_obj, hinfo, Option.getD_some,
              pyDictGet_orElse, htok]
            rfl
          | obj tkvs => exact addMsg_tokens_obj t kvs ikvs tkvs hinfo htok h2
          | bool b => simp [tokensOk] at h2
          | num n => simp [tokensOk] at h2
          | str s => simp [tokensOk] at h2
          | arr xs => simp [tokensOk] at h2
      | bool b =>
        simp only [msgWF] at h
        rw [hinfo] at h
        simp at h
      | num n =>
        simp only [msgWF] at h
        rw [hinfo] at h
        simp at h
      | str s =>
        simp only [msgWF] at h
        rw [hinfo] at h
        simp at h
      | arr xs =>
        simp only [msgWF] at h
        rw [hinfo] at h
        simp at h
  | null => simp [msgWF] at h
  | bool b => simp [msgWF] at h
  | num n => simp [msgWF] at h
  | str s => simp [msgWF] at h
  | arr xs => simp [msgWF] at h

/-- The summation loop over well-formed messages never raises and folds
the per-message contributions. -/
theorem foldlM_addMsg (ms : List JVal) :
    ∀ t : Totals, (∀ m ∈ ms, msgWF m = true) →
      ms.foldlM addMsg t
        = .ok (ms.foldl (fun acc m => addTot acc (specMsgTokens m)) t) := by
  induction ms with
  | nil => exact fun t _ => rfl
  | cons m rest ih =>
    intro t h
    rw [List.foldlM_cons, addMsg_wf t m (h m (by simp)), List.foldl_cons]
    exact ih _ (fun x hx => h x (List.mem_cons_of_mem _ hx))

/-- Folding contributions computes the six per-category sums. -/
theorem foldl_addTot_sum (ms : List JVal) :
    ∀ t : Totals, ms.foldl (fun acc m => addTot acc (specMsgTokens m)) t
      = ⟨t.total + (ms.map (fun m => (specMsgTokens m).total)).sum,
         t.input + (ms.map (fun m => (specMsgTokens m).input)).sum,
         t.output + (ms.map (fun m => (specMsgTokens m).output)).sum,
         t.reasoning + (ms.map (fun m => (specMsgTokens m).reasoning)).sum,
         t.cache_read + (ms.map (fun m => (specMsgTokens m).cache_read)).sum,
         t.cache_write + (ms.map (fun m => (specMsgTokens m).cache_write)).sum⟩ := by
  induction ms with
  | nil =>
    intro t
    cases t
    simp
  | cons m rest ih =>
    intro t
    rw [List.foldl_cons, ih]
    cases t
    simp only [addTot, List.map_cons, List.sum_cons, Totals.mk.injEq]
    omega

/-- C9 (token-usage summation): for a session log whose `messages` list
holds well-formed entries, the extractor returns the map in which each of
the six categories is exactly the sum of that field over all messages
carrying token data (absent fields count 0), and every category is 0 when
no message carries token data. -/
theorem C9_token_sums (ms : List JVal) (hwf : ∀ m ∈ ms, msgWF m = true) :
    extract_token_usage_from_session
        (some (.ok (.obj [("messages", .arr ms)])))
      = .ok [("total", (ms.map (fun m => (specMsgTokens m).total)).sum),
             ("input", (ms.map (fun m => (specMsgTokens m).input)).sum),
             ("output", (ms.map (fun m => (specMsgTokens m).output)).sum),
             ("reasoning",
              (ms.map (fun m => (specMsgTokens m).reasoning)).sum),
             ("cache_read",
              (ms.map (fun m => (specMsgTokens m).cache_read)).sum),
             ("cache_write",
              (ms.map (fun m => (specMsgTokens m).cache_write)).sum)]
      ∧ ((∀ m ∈ ms, specMsgTokens m = totals0) →
          extract_token_usage_from_session
              (some (.ok (.obj [("messages", .arr ms)])))
            = .ok [("total", 0), ("input", 0), ("output", 0),
                   ("reasoning", 0), ("cache_read", 0), ("cache_write", 0)]) := by
  have hsm : sessionMessages
      (some (.ok (.obj [("messages", .arr ms)]))) = some (.arr ms) := rfl
  have hmain : extract_token_usage_from_session
      (some (.ok (.obj [("messages", .arr ms)])))
      = .ok (totalsToList
          (ms.foldl (fun acc m => addTot acc (specMsgTokens m)) totals0)) := by
    unfold extract_token_usage_from_session
    rw [hsm]
    show (match ms.foldlM addMsg totals0 with
          | Except.error e => Except.error e
          | Except.ok t => Except.ok (totalsToList t)) = _
    rw [foldlM_addMsg ms totals0 hwf]
  rw [hmain, foldl_addTot_sum]
  constructor
  · simp [totalsToList, totals0]
  · intro hz
    have hsz : ∀ l : List Int, (∀ x ∈ l, x = 0) → l.sum = 0 := by
      intro l
      induction l with
      | nil => intro; rfl
      | cons x xs ih2 =>
        intro hx
        rw [List.sum_cons, hx x (by simp), ih2 (fun y hy => hx y (by simp [hy]))]
        rfl
    have hz1 : (List.map (fun m => (specMsgTokens m).total) ms).sum = 0 := by
      apply hsz
      intro x hx
      obtain ⟨m, hm, rfl⟩ := List.mem_map.mp hx
      rw [hz m hm]
      rfl
    have hz2 : (List.map (fun m => (specMsgTokens m).input) ms).sum = 0 := by
      apply hsz
      intro x hx
      obtain ⟨m, hm, rfl⟩ := List.mem_map.mp hx
      rw [hz m hm]
      rfl
    have hz3 : (List.map (fun m => (specMsgTokens m).output) ms).sum = 0 := by
      apply hsz
      intro x hx
      obtain ⟨m, hm, rfl⟩ := List.mem_map.mp hx
      rw [hz m hm]
      rfl
    have hz4 : (List.map (fun m => (specMsgTokens m).reasoning) ms).sum = 0 := by
      apply hsz
      intro x hx
      obtain ⟨m, hm, rfl⟩ := List.mem_map.mp hx
      rw [hz m hm]
      rfl
    have hz5 : (List.map (fun m => (specMsgTokens m).cache_read) ms).sum = 0 := by
      apply hsz
      intro x hx
      obtain ⟨m, hm, rfl⟩ := List.mem_map.mp hx
      rw [hz m hm]
      rfl
    have hz6 : (List.map (fun m => (specMsgTokens m).cache_write) ms).sum = 0 := by
      apply hsz
      intro x hx
      obtain ⟨m, hm, rfl⟩ := List.mem_map.mp hx
      rw [hz m hm]
      rfl
    simp [totalsToList, totals0, hz1, hz2, hz3, hz4, hz5, hz6]

end Act

/-- Witness for C9 at the repository's own two-message test vector. -/
theorem C9_token_sums_witness :
    (∀ m ∈ [Act.msgW1, Act.msgW2],
        Act.msgWF m = true)
      ∧ (Act.extract_token_usage_from_session
            (some (.ok (.obj [("messages",
              .arr [Act.msgW1, Act.msgW2])])))
          = .ok [("total",
                  (([Act.msgW1, Act.msgW2].map
                    (fun m => (Act.specMsgTokens m).total)).sum)),
                 ("input",
                  (([Act.msgW1, Act.msgW2].map
                    (fun m => (Act.specMsgTokens m).input)).sum)),
                 ("output",
                  (([Act.msgW1, Act.msgW2].map
                    (fun m => (Act.specMsgTokens m).output)).sum)),
                 ("reasoning",
                  (([Act.msgW1, Act.msgW2].map
                    (fun m => (Act.specMsgTokens m).reasoning)).sum)),
                 ("cache_read",
                  (([Act.msgW1, Act.msgW2].map
                    (fun m => (Act.specMsgTokens m).cache_read)).sum)),
                 ("cache_write",
                  (([Act.msgW1, Act.msgW2].map
                    (fun m => (Act.specMsgTokens m).cache_write)).sum))]
          ∧ ((∀ m ∈ [Act.msgW1, Act.msgW2],
              Act.specMsgTokens m = Act.totals0) →
              Act.extract_token_usage_from_session
                  (some (.ok (.obj [("messages",
                    .arr [Act.msgW1, Act.msgW2])])))
                = .ok [("total", 0), ("input", 0), ("output", 0),
                       ("reasoning", 0), ("cache_read", 0),
                       ("cache_write", 0)])) :=
  ⟨by decide, Act.C9_token_sums [Act.msgW1, Act.msgW2]
    (by decide)⟩

end AgentBenchmark
